import Mathlib

/-!
# Verification of the relation indexer and the IDS property facet

Shallow embedding of `packages/core/src/ifc/IfcRelationsIndexer/index.ts` and
`packages/core/src/openbim/IDSSpecifications/src/facets/Property.ts`.

JavaScript `Map` objects and plain objects with numeric keys are represented as
association lists of key-value entries, kept in insertion order.  `alookup` is
`Map.get` / property read (the first entry with the key; keys are unique in any
real `Map`/object, and the operations below preserve that), and `recSet` is
`Map.set` / property write: it replaces the entry in place when the key is
present and appends otherwise, exactly as JavaScript does.
-/

namespace Spec2Proof

section AssocList

variable {α β : Type} [DecidableEq α]

def alookup : List (α × β) → α → Option β
  | [], _ => none
  | p :: ps, k => if p.1 = k then some p.2 else alookup ps k

def recSet : List (α × β) → α → β → List (α × β)
  | [], k, v => [(k, v)]
  | p :: ps, k, v => if p.1 = k then (k, v) :: ps else p :: recSet ps k v

theorem alookup_nil (k : α) : alookup ([] : List (α × β)) k = none := rfl

theorem alookup_recSet (l : List (α × β)) (k k' : α) (v : β) :
    alookup (recSet l k v) k' = if k' = k then some v else alookup l k' := by
  induction l with
  | nil =>
    by_cases h : k' = k
    · simp [recSet, alookup, h]
    · rw [if_neg h]
      simp only [recSet, alookup]
      rw [if_neg (fun h' : k = k' => h h'.symm)]
  | cons p ps ih =>
    by_cases hp : p.1 = k
    · by_cases hk : k' = k
      · simp [recSet, alookup, hp, hk]
      · simp only [recSet, if_pos hp, alookup]
        rw [if_neg hk, if_neg (fun h' : k = k' => hk h'.symm),
          if_neg (fun h' : p.1 = k' => hk (hp ▸ h').symm)]
    · by_cases hpk : p.1 = k'
      · have hk : ¬k' = k := fun h => hp (hpk.trans h)
        simp only [recSet, if_neg hp, alookup, if_pos hpk, if_neg hk]
      · simp only [recSet, if_neg hp, alookup, if_neg hpk, ih]

theorem recSet_of_not_mem (l : List (α × β)) (k : α) (v : β)
    (h : k ∉ l.map Prod.fst) : recSet l k v = l ++ [(k, v)] := by
  induction l with
  | nil => rfl
  | cons p ps ih =>
    simp only [List.map_cons, List.mem_cons] at h
    push_neg at h
    simp only [recSet, if_neg (fun he : p.1 = k => h.1 he.symm), ih h.2, List.cons_append]

theorem alookup_eq_none_iff (l : List (α × β)) (k : α) :
    alookup l k = none ↔ k ∉ l.map Prod.fst := by
  induction l with
  | nil => simp [alookup]
  | cons p ps ih =>
    by_cases h : p.1 = k
    · simp [alookup, h]
    · simp only [alookup, if_neg h, ih, List.map_cons, List.mem_cons]
      constructor
      · intro hn hor
        rcases hor with h1 | h2
        · exact h h1.symm
        · exact hn h2
      · intro hn hm
        exact hn (Or.inr hm)

theorem alookup_isSome_iff (l : List (α × β)) (k : α) :
    (alookup l k).isSome = true ↔ k ∈ l.map Prod.fst := by
  rw [← Decidable.not_iff_not, ← alookup_eq_none_iff]
  cases alookup l k <;> simp

theorem alookup_mem {l : List (α × β)} {k : α} {v : β}
    (h : alookup l k = some v) : (k, v) ∈ l := by
  induction l with
  | nil => simp [alookup] at h
  | cons p ps ih =>
    by_cases hp : p.1 = k
    · simp only [alookup, if_pos hp] at h
      cases h
      have : p = (k, p.2) := by
        rw [← hp]
      rw [← this]
      exact List.mem_cons_self _ _
    · simp only [alookup, if_neg hp] at h
      exact List.mem_cons_of_mem _ (ih h)

theorem mem_alookup {l : List (α × β)} {k : α} {v : β}
    (nd : (l.map Prod.fst).Nodup) (h : (k, v) ∈ l) : alookup l k = some v := by
  induction l with
  | nil => simp at h
  | cons p ps ih =>
    simp only [List.map_cons, List.nodup_cons] at nd
    rcases List.mem_cons.mp h with h1 | h2
    · subst h1
      simp [alookup]
    · have hk : p.1 ≠ k := by
        intro he
        exact nd.1 (he ▸ (List.mem_map.mpr ⟨(k, v), h2, rfl⟩))
      simp [alookup, hk, ih nd.2 h2]

theorem alookup_of_perm {l l' : List (α × β)} (hp : List.Perm l l')
    (nd : (l.map Prod.fst).Nodup) (k : α) : alookup l k = alookup l' k := by
  have nd' : (l'.map Prod.fst).Nodup := ((hp.map Prod.fst).nodup_iff).mp nd
  cases hv : alookup l k with
  | none =>
    rw [alookup_eq_none_iff] at hv
    have : k ∉ l'.map Prod.fst := fun hm => hv (((hp.map Prod.fst).mem_iff).mpr hm)
    exact ((alookup_eq_none_iff _ _).mpr this).symm
  | some v =>
    exact (mem_alookup nd' (hp.mem_iff.mp (alookup_mem hv))).symm

theorem alookup_map_snd {γ : Type} (l : List (α × β)) (g : β → γ) (k : α) :
    alookup (l.map (fun p => (p.1, g p.2))) k = (alookup l k).map g := by
  induction l with
  | nil => simp [alookup]
  | cons p ps ih =>
    by_cases h : p.1 = k <;> simp [alookup, h, ih]

end AssocList

section SortByKey

variable {α β : Type} [LinearOrder α]

/-- Insertion step of an insertion sort by key; used to model the ascending
enumeration order of integer-like keys in a JavaScript object. -/
def insortKey (p : α × β) : List (α × β) → List (α × β)
  | [] => [p]
  | q :: qs => if p.1 ≤ q.1 then p :: q :: qs else q :: insortKey p qs

/-- JavaScript `for (const k in obj)` lists the integer-like keys of a JavaScript object in
ascending numeric order; `sortByKey` produces the entries in that order. -/
def sortByKey (l : List (α × β)) : List (α × β) :=
  l.foldr insortKey []

theorem insortKey_perm (p : α × β) (l : List (α × β)) :
    List.Perm (insortKey p l) (p :: l) := by
  induction l with
  | nil => exact List.Perm.refl _
  | cons q qs ih =>
    by_cases h : p.1 ≤ q.1
    · simp [insortKey, h]
    · simp only [insortKey, if_neg h]
      exact ((ih.cons q).trans (List.Perm.swap p q qs))

theorem sortByKey_perm (l : List (α × β)) : List.Perm (sortByKey l) l := by
  induction l with
  | nil => exact List.Perm.refl _
  | cons p ps ih =>
    exact (insortKey_perm p (sortByKey ps)).trans (ih.cons p)

theorem alookup_sortByKey [DecidableEq α] (l : List (α × β))
    (nd : (l.map Prod.fst).Nodup) (k : α) : alookup (sortByKey l) k = alookup l k := by
  have h := sortByKey_perm l
  exact alookup_of_perm h (((h.map Prod.fst).nodup_iff).mpr nd) k

end SortByKey

/-!
## IfcRelationsIndexer: data model

From `IfcRelationsIndexer/index.ts`: the fixed list `_inverseAttributes` of 14
inverse-attribute role names (order significant: a role's slot index is its
position in this list) and the fixed list `_ifcRels` of 8 relation type codes.
-/

inductive InverseAttribute where
  | IsDecomposedBy
  | Decomposes
  | AssociatedTo
  | HasAssociations
  | ClassificationForObjects
  | IsGroupedBy
  | HasAssignments
  | IsDefinedBy
  | DefinesOcurrence
  | IsTypedBy
  | Types
  | Defines
  | ContainedInStructure
  | ContainsElements
deriving DecidableEq, Fintype

/-- The list `_inverseAttributes`, in source order. -/
def inverseAttributes : List InverseAttribute :=
  [.IsDecomposedBy, .Decomposes, .AssociatedTo, .HasAssociations,
   .ClassificationForObjects, .IsGroupedBy, .HasAssignments, .IsDefinedBy,
   .DefinesOcurrence, .IsTypedBy, .Types, .Defines,
   .ContainedInStructure, .ContainsElements]

inductive IfcRel where
  | IFCRELAGGREGATES
  | IFCRELASSOCIATESMATERIAL
  | IFCRELASSOCIATESCLASSIFICATION
  | IFCRELASSIGNSTOGROUP
  | IFCRELDEFINESBYPROPERTIES
  | IFCRELDEFINESBYTYPE
  | IFCRELDEFINESBYTEMPLATE
  | IFCRELCONTAINEDINSPATIALSTRUCTURE
deriving DecidableEq, Fintype

/-- The list `_ifcRels`, in source order. -/
def ifcRels : List IfcRel :=
  [.IFCRELAGGREGATES, .IFCRELASSOCIATESMATERIAL, .IFCRELASSOCIATESCLASSIFICATION,
   .IFCRELASSIGNSTOGROUP, .IFCRELDEFINESBYPROPERTIES, .IFCRELDEFINESBYTYPE,
   .IFCRELDEFINESBYTEMPLATE, .IFCRELCONTAINEDINSPATIALSTRUCTURE]

structure InverseAttributePair where
  forRelating : InverseAttribute
  forRelated : InverseAttribute
deriving DecidableEq

/-- Modelled from the spec: `relToAttributesMap`
(`IfcRelationsIndexer/src/relToAttributesMap.ts` is not under `src/`).  The spec
describes it as a static table mapping each relation kind to exactly one pair of
roles, `forRelating` (recorded on the relating entity) and `forRelated`
(recorded on each related entity); the role names are drawn from the
`_inverseAttributes` list above (for instance the aggregates relation decomposes
into `IsDecomposedBy`/`Decomposes`).  Lookup of a missing kind yields `none`
(`Map.get` returning `undefined`). -/
def relToAttributesMap (rel : IfcRel) : Option InverseAttributePair :=
  match rel with
  | .IFCRELAGGREGATES => some ⟨.IsDecomposedBy, .Decomposes⟩
  | .IFCRELASSOCIATESMATERIAL => some ⟨.AssociatedTo, .HasAssociations⟩
  | .IFCRELASSOCIATESCLASSIFICATION => some ⟨.ClassificationForObjects, .HasAssociations⟩
  | .IFCRELASSIGNSTOGROUP => some ⟨.IsGroupedBy, .HasAssignments⟩
  | .IFCRELDEFINESBYPROPERTIES => some ⟨.DefinesOcurrence, .IsDefinedBy⟩
  | .IFCRELDEFINESBYTYPE => some ⟨.Types, .IsTypedBy⟩
  | .IFCRELDEFINESBYTEMPLATE => some ⟨.Defines, .IsDefinedBy⟩
  | .IFCRELCONTAINEDINSPATIALSTRUCTURE => some ⟨.ContainsElements, .ContainedInStructure⟩

def jsIndexOfAux (a : InverseAttribute) : List InverseAttribute → Int → Int
  | [], _ => -1
  | x :: xs, i => if x = a then i else jsIndexOfAux a xs (i + 1)

/-- JavaScript `Array.prototype.indexOf`: first index of the element, `-1` when
absent. -/
def jsIndexOf (l : List InverseAttribute) (a : InverseAttribute) : Int :=
  jsIndexOfAux a l 0

/-- Slot index of the `forRelating` role of a kind-to-role pair. -/
def idxF (inv : InverseAttributePair) : Int :=
  jsIndexOf inverseAttributes inv.forRelating

/-- Slot index of the `forRelated` role of a kind-to-role pair. -/
def idxR (inv : InverseAttributePair) : Int :=
  jsIndexOf inverseAttributes inv.forRelated

/-- The type `RelationsMap`: `Map<number, Map<number, number[]>>` — entity expressID to
slot-index to related expressIDs. -/
abbrev RelationsMap := List (Nat × List (Int × List Nat))

/-!
## IDS data model (shared value types)

Scalar JavaScript values occurring in attribute bags and facet parameters.
-/

inductive JsVal where
  | str (s : String)
  | num (n : Int)
deriving DecidableEq

/-- A web-ifc leaf value `{ name, type, value }` (e.g. `Name`, `NominalValue`,
or one element of a list value); `name` is the IFC type label such as
"IFCLABEL", `type` the web-ifc value-kind tag. -/
structure IfcValueAttr where
  name : String
  typeTag : Int
  value : JsVal
deriving DecidableEq

/-- One attribute of an entity's attribute bag: either a leaf value or an array
of leaf values (list/enumerated property values, handle arrays). -/
inductive Attr where
  | scalar (v : IfcValueAttr)
  | arr (vs : List IfcValueAttr)
deriving DecidableEq

/-- An entity's attribute bag: the numeric `type` field plus named attributes. -/
structure Bag where
  typeCode : Int
  entries : List (String × Attr)
deriving DecidableEq

/-- Reads `attrs.Name?.value`. -/
def Bag.nameValue (b : Bag) : Option JsVal :=
  match alookup b.entries "Name" with
  | some (.scalar v) => some v.value
  | _ => none

/-- Reads `attrs.GlobalId?.value`. -/
def Bag.globalId (b : Bag) : Option JsVal :=
  match alookup b.entries "GlobalId" with
  | some (.scalar v) => some v.value
  | _ => none

/-!
## IfcRelationsIndexer: operations
-/

/-- A `FragmentsGroup` model as the indexer and the property facet consume it:
an identifier, the `hasProperties` flag, the relation records reachable per
relation kind, and the asynchronous property accessor (modelled as a pure
lookup, the only effect of `await` being sequencing). -/
structure FragmentsGroup where
  uuid : String
  hasProperties : Bool
  relationRecords : IfcRel → List (Nat × List Nat)
  props : Int → Option Bag
  propsOfType : Int → List (Int × Bag)

/-- Modelled from the spec: `IfcPropertiesUtils.getRelationMap` (not under
`src/`) invokes the supplied callback once per relation record of the given
kind found in the parsed model, passing the relating expressID and the related
expressIDs.  The records themselves are data of the model. -/
def getRelationMap (model : FragmentsGroup) (rel : IfcRel) : List (Nat × List Nat) :=
  model.relationRecords rel

instance instDecEqRelationsMap : DecidableEq RelationsMap := inferInstance

instance instDecEqUuidRelationsMap : DecidableEq (String × RelationsMap) :=
  @instDecidableEqProd _ _ _ instDecEqRelationsMap

/-- The indexer's mutable state: `relationMaps`, keyed by model UUID. -/
structure IndexerState where
  relationMaps : List (String × RelationsMap)
deriving DecidableEq

/-- Method `setRelationMap` (the `onRelationsIndexed` event is an external
notification and carries no state). -/
def setRelationMap (st : IndexerState) (model : FragmentsGroup) (relationMap : RelationsMap) :
    IndexerState :=
  ⟨recSet st.relationMaps model.uuid relationMap⟩

/-- One iteration of the `forRelated` loop (lines 147-155 / 204-212): fetch the
related entity's slot table (or a fresh one), append the relating entity to the
inverse slot's list, store both back. -/
def invStep (inv : InverseAttributePair) (relatingID : Nat) (acc : RelationsMap)
    (id : Nat) : RelationsMap :=
  let cm := (alookup acc id).getD []
  let relations := (alookup cm (idxR inv)).getD []
  recSet acc id (recSet cm (idxR inv) (relations ++ [relatingID]))

/-- The per-record body shared verbatim by `process` (lines 139-155) and
`processFromWebIfc` (lines 196-212): set the forward slot of the relating
entity to the related list, then append one back-reference to the relating
entity in the inverse slot of every related entity. -/
def indexRecord (inv : InverseAttributePair) (relationsMap : RelationsMap)
    (relatingID : Nat) (relatedIDs : List Nat) : RelationsMap :=
  let currentMap := (alookup relationsMap relatingID).getD []
  let m1 := recSet relationsMap relatingID (recSet currentMap (idxF inv) relatedIDs)
  relatedIDs.foldl (invStep inv relatingID) m1

/-- One iteration of `process`'s loop over `_ifcRels`: every record of the kind
is passed to the callback, which looks the kind up in `relToAttributesMap` and
returns early when the kind is unmapped. -/
def processKind (model : FragmentsGroup) (relationsMap : RelationsMap) (rel : IfcRel) :
    RelationsMap :=
  (getRelationMap model rel).foldl (fun acc p =>
    match relToAttributesMap rel with
    | none => acc
    | some inv => indexRecord inv acc p.1 p.2) relationsMap

/-- Method `process`: throws when the model has no properties, returns the cached map
unchanged when one exists for the model UUID, and otherwise builds the map from
all records of all kinds and stores it via `setRelationMap`. -/
def process (st : IndexerState) (model : FragmentsGroup) :
    Except String (RelationsMap × IndexerState) :=
  if model.hasProperties = false then
    Except.error "FragmentsGroup properties not found"
  else
    match alookup st.relationMaps model.uuid with
    | some relationsMap => Except.ok (relationsMap, st)
    | none =>
      let relationsMap := ifcRels.foldl (processKind model) []
      Except.ok (relationsMap, setRelationMap st model relationsMap)

/-- JavaScript `String.prototype.startsWith`, in an executable form (the
core-library `String.startsWith` is defined by well-founded recursion and does
not evaluate inside the kernel). -/
def strStartsWith (s pre : String) : Bool :=
  List.isPrefixOf pre.data s.data

/-- A raw relation attribute value as `ifcApi.properties.getItemProperties`
returns it: a handle `{ value }` or an array of handles. -/
inductive RelAttrVal where
  | handle (value : Nat)
  | handleList (values : List Nat)
deriving DecidableEq

/-- The lower-level WebIFC property-retrieval surface consumed by
`processFromWebIfc`: raw relation line IDs per type code and raw attribute bags
per line ID. -/
structure WebIfcApi where
  lineIDsWithType : IfcRel → List Nat
  itemProperties : Nat → List (String × RelAttrVal)

/-- Method `processFromWebIfc`: for every relation kind with a role-table entry,
enumerate the raw relation lines, find the first attribute keys starting with
"Relating" and "Related", skip the record when either is missing, and index the
extracted record.  (The external surface guarantees that a Relating-prefixed
attribute is a handle and a Related-prefixed one a handle array; records not of
that shape are likewise skipped here.) -/
def processFromWebIfc (ifcApi : WebIfcApi) : RelationsMap :=
  ifcRels.foldl (fun relationsMap relType =>
    match relToAttributesMap relType with
    | none => relationsMap
    | some inv =>
      (ifcApi.lineIDsWithType relType).foldl (fun acc lineID =>
        let relAttrs := ifcApi.itemProperties lineID
        let relatingKey := (relAttrs.map Prod.fst).find? (fun key => strStartsWith key "Relating")
        let relatedKey := (relAttrs.map Prod.fst).find? (fun key => strStartsWith key "Related")
        match relatingKey, relatedKey with
        | some kg, some kd =>
          match alookup relAttrs kg, alookup relAttrs kd with
          | some (.handle relatingID), some (.handleList relatedIDs) =>
            indexRecord inv acc relatingID relatedIDs
          | _, _ => acc
        | _, _ => acc) relationsMap) []

/-- The relation record `processFromWebIfc` extracts from one raw attribute
bag, `none` when it is skipped; used to state that both ingestion paths consume
the same records. -/
def extractRelRecord (relAttrs : List (String × RelAttrVal)) : Option (Nat × List Nat) :=
  let relatingKey := (relAttrs.map Prod.fst).find? (fun key => strStartsWith key "Relating")
  let relatedKey := (relAttrs.map Prod.fst).find? (fun key => strStartsWith key "Related")
  match relatingKey, relatedKey with
  | some kg, some kd =>
    match alookup relAttrs kg, alookup relAttrs kd with
    | some (.handle relatingID), some (.handleList relatedIDs) => some (relatingID, relatedIDs)
    | _, _ => none
  | _, _ => none

/-- All records the WebIFC path extracts for one kind, in extraction order. -/
def extractedRecords (ifcApi : WebIfcApi) (rel : IfcRel) : List (Nat × List Nat) :=
  (ifcApi.lineIDsWithType rel).filterMap (fun lineID =>
    extractRelRecord (ifcApi.itemProperties lineID))

/-- Method `getEntityRelations`: null when the model has no index; null when the
entity has no slot table or the role name is not in `_inverseAttributes`; null
when the slot table has no entry at the role's index; the stored list
otherwise. -/
def getEntityRelations (st : IndexerState) (model : FragmentsGroup) (expressID : Nat)
    (relationName : InverseAttribute) : Option (List Nat) :=
  match alookup st.relationMaps model.uuid with
  | none => none
  | some indexMap =>
    let entityRelations := alookup indexMap expressID
    let attributeIndex := jsIndexOf inverseAttributes relationName
    match entityRelations with
    | none => none
    | some row =>
      if attributeIndex = -1 then none
      else
        match alookup row attributeIndex with
        | none => none
        | some relations => some relations

/-- Method `serializeRelations`, up to the JSON text: the nested plain object built
from the map (`JSON.stringify` of this object and `JSON.parse` back preserve it
exactly — integer identifiers below 2^53 lose no precision — so the textual
codec, which is the external standard library, is elided). -/
def serializeRelations (relationMap : RelationsMap) : List (Nat × List (Int × List Nat)) :=
  relationMap.foldl (fun object p =>
    let base := (alookup object p.1).getD []
    let inner := p.2.foldl (fun acc q => recSet acc q.1 q.2) base
    recSet object p.1 inner) []

/-- Method `getRelationsMapFromJSON`, from the parsed object: `for...in` enumerates
the integer-like keys of a JavaScript object in ascending numeric order
(modelled by `sortByKey`; the maps the indexer builds only ever hold
non-negative keys), and `Number(key)` recovers each identifier exactly. -/
def getRelationsMapFromJSON (relations : List (Nat × List (Int × List Nat))) : RelationsMap :=
  (sortByKey relations).foldl (fun indexMap p =>
    let relationMap := (sortByKey p.2).foldl (fun acc q => recSet acc q.1 q.2) []
    recSet indexMap p.1 relationMap) []

/-!
## Indexing lemmas

`lookupSlot m x j` observes one slot of the relation map: the list stored for
entity `x` at slot index `j`, `none` when the entity or the slot is absent.
-/

def lookupSlot (m : RelationsMap) (x : Nat) (j : Int) : Option (List Nat) :=
  (alookup m x).bind (fun row => alookup row j)

/-- The slot's list, defaulted to the empty list. -/
def slotD (m : RelationsMap) (x : Nat) (j : Int) : List Nat :=
  (lookupSlot m x j).getD []

theorem lookupSlot_setSlot (m : RelationsMap) (e : Nat) (j0 : Int) (v : List Nat)
    (x : Nat) (j : Int) :
    lookupSlot (recSet m e (recSet ((alookup m e).getD []) j0 v)) x j =
      if x = e ∧ j = j0 then some v else lookupSlot m x j := by
  unfold lookupSlot
  rw [alookup_recSet]
  by_cases hx : x = e
  · subst hx
    rw [if_pos rfl]
    simp only [Option.some_bind]
    rw [alookup_recSet]
    by_cases hj : j = j0
    · simp [hj]
    · rw [if_neg hj, if_neg (fun h => hj h.2)]
      cases hm : alookup m x with
      | none => simp [alookup]
      | some row => simp
  · rw [if_neg hx, if_neg (fun h => hx h.1)]

theorem lookupSlot_invStep (inv : InverseAttributePair) (r : Nat) (m : RelationsMap)
    (e x : Nat) (j : Int) :
    lookupSlot (invStep inv r m e) x j =
      if x = e ∧ j = idxR inv then some (slotD m e (idxR inv) ++ [r])
      else lookupSlot m x j := by
  have hrel : ((alookup ((alookup m e).getD []) (idxR inv)).getD []) = slotD m e (idxR inv) := by
    unfold slotD lookupSlot
    cases alookup m e with
    | none => simp [alookup]
    | some row => simp
  show lookupSlot (recSet m e (recSet ((alookup m e).getD []) (idxR inv)
      (((alookup ((alookup m e).getD []) (idxR inv)).getD []) ++ [r]))) x j = _
  rw [hrel, lookupSlot_setSlot]

theorem lookupSlot_invFold (inv : InverseAttributePair) (r : Nat) (E : List Nat)
    (m : RelationsMap) (x : Nat) (j : Int) :
    lookupSlot (E.foldl (invStep inv r) m) x j =
      if j = idxR inv ∧ x ∈ E then
        some (slotD m x (idxR inv) ++ List.replicate (E.count x) r)
      else lookupSlot m x j := by
  induction E generalizing m with
  | nil => simp
  | cons e es ih =>
    rw [List.foldl_cons, ih]
    have hstep := lookupSlot_invStep inv r m e x j
    by_cases hj : j = idxR inv
    · subst hj
      by_cases hxe : x = e
      · subst hxe
        rw [if_pos ⟨rfl, rfl⟩] at hstep
        have hsd : slotD (invStep inv r m x) x (idxR inv) = slotD m x (idxR inv) ++ [r] := by
          unfold slotD
          rw [hstep]
          rfl
        by_cases hxes : x ∈ es
        · rw [if_pos ⟨rfl, hxes⟩, if_pos ⟨rfl, List.mem_cons_self x es⟩, hsd,
            List.append_assoc, List.count_cons_self, List.replicate_succ, List.singleton_append]
        · rw [if_neg (fun h => hxes h.2), if_pos ⟨rfl, List.mem_cons_self x es⟩, hstep,
            List.count_cons_self, List.count_eq_zero.mpr hxes, List.replicate_succ]
          rfl
      · have hsd : slotD (invStep inv r m e) x (idxR inv) = slotD m x (idxR inv) := by
          unfold slotD
          rw [if_neg (fun h => hxe h.1)] at hstep
          rw [hstep]
        rw [if_neg (fun h => hxe h.1)] at hstep
        by_cases hxes : x ∈ es
        · rw [if_pos ⟨rfl, hxes⟩, if_pos ⟨rfl, List.mem_cons_of_mem e hxes⟩, hsd,
            List.count_cons_of_ne hxe]
        · have hnx : x ∉ e :: es := by
            intro hmem
            rcases List.mem_cons.mp hmem with h1 | h2
            · exact hxe h1
            · exact hxes h2
          rw [if_neg (fun h => hxes h.2), if_neg (fun h => hnx h.2), hstep]
    · rw [if_neg (fun h : x = e ∧ j = idxR inv => hj h.2)] at hstep
      rw [if_neg (fun h : j = idxR inv ∧ x ∈ es => hj h.1),
        if_neg (fun h : j = idxR inv ∧ x ∈ e :: es => hj h.1), hstep]

theorem lookupSlot_indexRecord (inv : InverseAttributePair) (hne : idxF inv ≠ idxR inv)
    (m : RelationsMap) (r : Nat) (E : List Nat) (x : Nat) (j : Int) :
    lookupSlot (indexRecord inv m r E) x j =
      if j = idxR inv ∧ x ∈ E then
        some (slotD m x (idxR inv) ++ List.replicate (E.count x) r)
      else if x = r ∧ j = idxF inv then some E
      else lookupSlot m x j := by
  show lookupSlot (E.foldl (invStep inv r)
      (recSet m r (recSet ((alookup m r).getD []) (idxF inv) E))) x j = _
  rw [lookupSlot_invFold]
  have h1 : slotD (recSet m r (recSet ((alookup m r).getD []) (idxF inv) E)) x (idxR inv)
      = slotD m x (idxR inv) := by
    unfold slotD
    rw [lookupSlot_setSlot, if_neg (fun h => hne h.2.symm)]
  have h2 : lookupSlot (recSet m r (recSet ((alookup m r).getD []) (idxF inv) E)) x j
      = if x = r ∧ j = idxF inv then some E else lookupSlot m x j :=
    lookupSlot_setSlot m r (idxF inv) E x j
  rw [h1, h2]

/-- Folding all records of one kind, as `process`'s callback does record by
record. -/
def foldRecords (inv : InverseAttributePair) (recs : List (Nat × List Nat))
    (m : RelationsMap) : RelationsMap :=
  recs.foldl (fun acc p => indexRecord inv acc p.1 p.2) m

theorem foldl_acc_id {γ δ : Type} (l : List δ) (a : γ) :
    l.foldl (fun acc _ => acc) a = a := by
  induction l generalizing a with
  | nil => rfl
  | cons d ds ih => exact ih a

theorem processKind_none (model : FragmentsGroup) (m : RelationsMap) (rel : IfcRel)
    (h : relToAttributesMap rel = none) : processKind model m rel = m := by
  unfold processKind
  have hf : (fun (acc : RelationsMap) (p : Nat × List Nat) =>
      match relToAttributesMap rel with
      | none => acc
      | some inv => indexRecord inv acc p.1 p.2) = fun acc _ => acc := by
    funext acc p
    rw [h]
  rw [hf, foldl_acc_id]

theorem processKind_some (model : FragmentsGroup) (m : RelationsMap) (rel : IfcRel)
    (inv : InverseAttributePair) (h : relToAttributesMap rel = some inv) :
    processKind model m rel = foldRecords inv (getRelationMap model rel) m := by
  unfold processKind foldRecords
  have hf : (fun (acc : RelationsMap) (p : Nat × List Nat) =>
      match relToAttributesMap rel with
      | none => acc
      | some inv => indexRecord inv acc p.1 p.2) =
      fun acc p => indexRecord inv acc p.1 p.2 := by
    funext acc p
    rw [h]
  rw [hf]

theorem foldRecords_cons (inv : InverseAttributePair) (p : Nat × List Nat)
    (ps : List (Nat × List Nat)) (m : RelationsMap) :
    foldRecords inv (p :: ps) m = foldRecords inv ps (indexRecord inv m p.1 p.2) := rfl

theorem lookupSlot_foldRecords_pres (inv : InverseAttributePair) (hne : idxF inv ≠ idxR inv)
    (recs : List (Nat × List Nat)) (m : RelationsMap) (x : Nat) (j : Int)
    (hjF : j ≠ idxF inv) (hjR : j ≠ idxR inv) :
    lookupSlot (foldRecords inv recs m) x j = lookupSlot m x j := by
  induction recs generalizing m with
  | nil => rfl
  | cons p ps ih =>
    rw [foldRecords_cons, ih, lookupSlot_indexRecord inv hne,
      if_neg (fun hc : j = idxR inv ∧ x ∈ p.2 => hjR hc.1),
      if_neg (fun hc : x = p.1 ∧ j = idxF inv => hjF hc.2)]

theorem lookupSlot_foldRecords_noRelating (inv : InverseAttributePair)
    (hne : idxF inv ≠ idxR inv) (recs : List (Nat × List Nat)) (m : RelationsMap) (r : Nat)
    (h : ∀ p ∈ recs, p.1 ≠ r) :
    lookupSlot (foldRecords inv recs m) r (idxF inv) = lookupSlot m r (idxF inv) := by
  induction recs generalizing m with
  | nil => rfl
  | cons p ps ih =>
    rw [foldRecords_cons, ih _ (fun q hq => h q (List.mem_cons_of_mem p hq)),
      lookupSlot_indexRecord inv hne,
      if_neg (fun hc : idxF inv = idxR inv ∧ r ∈ p.2 => hne hc.1),
      if_neg (fun hc : r = p.1 ∧ idxF inv = idxF inv => h p (List.mem_cons_self p ps) hc.1.symm)]

theorem lookupSlot_foldRecords_last (inv : InverseAttributePair)
    (hne : idxF inv ≠ idxR inv) (l1 l2 : List (Nat × List Nat)) (r : Nat) (E : List Nat)
    (m : RelationsMap) (h2 : ∀ p ∈ l2, p.1 ≠ r) :
    lookupSlot (foldRecords inv (l1 ++ (r, E) :: l2) m) r (idxF inv) = some E := by
  have hsplit : foldRecords inv (l1 ++ (r, E) :: l2) m
      = foldRecords inv l2 (indexRecord inv (foldRecords inv l1 m) r E) := by
    unfold foldRecords
    rw [List.foldl_append, List.foldl_cons]
  rw [hsplit, lookupSlot_foldRecords_noRelating inv hne l2 _ r h2,
    lookupSlot_indexRecord inv hne,
    if_neg (fun hc : idxF inv = idxR inv ∧ r ∈ E => hne hc.1), if_pos ⟨rfl, rfl⟩]

theorem mem_slotD_foldRecords_mono (inv : InverseAttributePair)
    (hne : idxF inv ≠ idxR inv) (recs : List (Nat × List Nat)) (m : RelationsMap)
    (x : Nat) (j : Int) (r' : Nat) (hjF : j ≠ idxF inv) (hmem : r' ∈ slotD m x j) :
    r' ∈ slotD (foldRecords inv recs m) x j := by
  induction recs generalizing m with
  | nil => exact hmem
  | cons p ps ih =>
    rw [foldRecords_cons]
    apply ih
    unfold slotD
    rw [lookupSlot_indexRecord inv hne]
    by_cases hc : j = idxR inv ∧ x ∈ p.2
    · rw [if_pos hc]
      have hmem' : r' ∈ slotD m x (idxR inv) := hc.1 ▸ hmem
      simp only [Option.getD_some]
      exact List.mem_append_left _ hmem'
    · rw [if_neg hc, if_neg (fun hd : x = p.1 ∧ j = idxF inv => hjF hd.2)]
      exact hmem

theorem mem_slotD_foldRecords_backref (inv : InverseAttributePair)
    (hne : idxF inv ≠ idxR inv) (recs : List (Nat × List Nat)) (m : RelationsMap)
    (r : Nat) (E : List Nat) (e : Nat) (hrec : (r, E) ∈ recs) (he : e ∈ E) :
    r ∈ slotD (foldRecords inv recs m) e (idxR inv) := by
  rcases List.append_of_mem hrec with ⟨l1, l2, rfl⟩
  have hsplit : foldRecords inv (l1 ++ (r, E) :: l2) m
      = foldRecords inv l2 (indexRecord inv (foldRecords inv l1 m) r E) := by
    unfold foldRecords
    rw [List.foldl_append, List.foldl_cons]
  rw [hsplit]
  apply mem_slotD_foldRecords_mono inv hne l2 _ _ _ r (fun hd => hne hd.symm)
  unfold slotD
  rw [lookupSlot_indexRecord inv hne, if_pos ⟨rfl, he⟩]
  simp only [Option.getD_some]
  apply List.mem_append_right
  exact List.mem_replicate.mpr ⟨Nat.pos_iff_ne_zero.mp (List.count_pos_iff.mpr he), rfl⟩

/-- Folding `process`'s outer loop over a list of relation kinds. -/
def foldKinds (model : FragmentsGroup) (m : RelationsMap) (ks : List IfcRel) : RelationsMap :=
  ks.foldl (processKind model) m

theorem foldKinds_cons (model : FragmentsGroup) (m : RelationsMap) (k : IfcRel)
    (ks : List IfcRel) :
    foldKinds model m (k :: ks) = foldKinds model (processKind model m k) ks := rfl

/-- Every mapped relation kind has distinct forward and inverse slot indices. -/
theorem table_hne : ∀ (k : IfcRel) (inv : InverseAttributePair),
    relToAttributesMap k = some inv → idxF inv ≠ idxR inv := by
  intro k inv h
  cases k <;>
    (simp only [relToAttributesMap, Option.some.injEq] at h; subst h; decide)

/-- Distinct mapped kinds have distinct forward slot indices. -/
theorem table_idxF_inj : ∀ (k k' : IfcRel) (inv inv' : InverseAttributePair),
    relToAttributesMap k = some inv → relToAttributesMap k' = some inv' →
    idxF inv = idxF inv' → k = k' := by
  intro k k' inv inv' h h'
  cases k <;> cases k' <;>
    (simp only [relToAttributesMap, Option.some.injEq] at h h'; subst h; subst h'; decide)

/-- No forward slot index coincides with any inverse slot index. -/
theorem table_idxF_ne_idxR : ∀ (k k' : IfcRel) (inv inv' : InverseAttributePair),
    relToAttributesMap k = some inv → relToAttributesMap k' = some inv' →
    idxF inv ≠ idxR inv' := by
  intro k k' inv inv' h h'
  cases k <;> cases k' <;>
    (simp only [relToAttributesMap, Option.some.injEq] at h h'; subst h; subst h'; decide)

/-- Every role name of the enumeration occurs in `_inverseAttributes`, so
`indexOf` never yields `-1`. -/
theorem jsIndexOf_ne_neg_one : ∀ a : InverseAttribute,
    jsIndexOf inverseAttributes a ≠ -1 := by
  decide

theorem lookupSlot_foldKinds_pres (model : FragmentsGroup) (ks : List IfcRel)
    (m : RelationsMap) (x : Nat) (j : Int)
    (h : ∀ k ∈ ks, ∀ inv, relToAttributesMap k = some inv → idxF inv ≠ j ∧ idxR inv ≠ j) :
    lookupSlot (foldKinds model m ks) x j = lookupSlot m x j := by
  induction ks generalizing m with
  | nil => rfl
  | cons k ks ih =>
    rw [foldKinds_cons, ih _ (fun k' hk' => h k' (List.mem_cons_of_mem k hk'))]
    cases htab : relToAttributesMap k with
    | none => rw [processKind_none _ _ _ htab]
    | some inv =>
      have hk := h k (List.mem_cons_self k ks) inv htab
      rw [processKind_some _ _ _ _ htab,
        lookupSlot_foldRecords_pres inv (table_hne k inv htab) _ _ _ _
          (fun hj => hk.1 hj.symm) (fun hj => hk.2 hj.symm)]

theorem mem_slotD_foldKinds_mono (model : FragmentsGroup) (ks : List IfcRel)
    (m : RelationsMap) (x : Nat) (j : Int) (r' : Nat)
    (h : ∀ k ∈ ks, ∀ inv, relToAttributesMap k = some inv → idxF inv ≠ j)
    (hmem : r' ∈ slotD m x j) : r' ∈ slotD (foldKinds model m ks) x j := by
  induction ks generalizing m with
  | nil => exact hmem
  | cons k ks ih =>
    rw [foldKinds_cons]
    apply ih _ (fun k' hk' => h k' (List.mem_cons_of_mem k hk'))
    cases htab : relToAttributesMap k with
    | none => rw [processKind_none _ _ _ htab]; exact hmem
    | some inv =>
      rw [processKind_some _ _ _ _ htab]
      exact mem_slotD_foldRecords_mono inv (table_hne k inv htab) _ _ _ _ _
        (fun hj => h k (List.mem_cons_self k ks) inv htab hj.symm) hmem

theorem getEntityRelations_eq_lookupSlot (st : IndexerState) (model : FragmentsGroup)
    (eid : Nat) (a : InverseAttribute) (im : RelationsMap)
    (him : alookup st.relationMaps model.uuid = some im) :
    getEntityRelations st model eid a = lookupSlot im eid (jsIndexOf inverseAttributes a) := by
  unfold getEntityRelations lookupSlot
  rw [him]
  cases hrow : alookup im eid with
  | none => simp only [hrow]; rfl
  | some row =>
    simp only [hrow, Option.some_bind, if_neg (jsIndexOf_ne_neg_one a)]
    cases alookup row (jsIndexOf inverseAttributes a) <;> rfl

theorem mem_ifcRels : ∀ k : IfcRel, k ∈ ifcRels := by
  decide

theorem nodup_ifcRels : ifcRels.Nodup := by
  decide

theorem process_fresh (st : IndexerState) (model : FragmentsGroup)
    (hp : model.hasProperties = true)
    (hc : alookup st.relationMaps model.uuid = none) :
    process st model = Except.ok (foldKinds model [] ifcRels,
      setRelationMap st model (foldKinds model [] ifcRels)) := by
  unfold process
  rw [hp, if_neg (by decide : ¬(true = false)), hc]
  rfl

theorem alookup_setRelationMap (st : IndexerState) (model : FragmentsGroup)
    (rm : RelationsMap) :
    alookup (setRelationMap st model rm).relationMaps model.uuid = some rm := by
  unfold setRelationMap
  rw [alookup_recSet, if_pos rfl]

theorem processKind_empty (model : FragmentsGroup) (m : RelationsMap) (rel : IfcRel)
    (h : getRelationMap model rel = []) : processKind model m rel = m := by
  unfold processKind
  rw [h]
  rfl

theorem foldKinds_empty_records (model : FragmentsGroup) (m : RelationsMap)
    (ks : List IfcRel) (h : ∀ k ∈ ks, getRelationMap model k = []) :
    foldKinds model m ks = m := by
  induction ks generalizing m with
  | nil => rfl
  | cons k ks ih =>
    rw [foldKinds_cons, processKind_empty _ _ _ (h k (List.mem_cons_self k ks))]
    exact ih m (fun k' hk' => h k' (List.mem_cons_of_mem k hk'))

/-- C1 (amended): for every relation record `(k, r, E)` of a freshly processed
model — split off as `records k = l1 ++ (r, E) :: l2` — two facts hold.  When
the record is additionally the last one of kind `k` whose relating entity is
`r` (no record of `l2` relates `r`), `getEntityRelations(model, r,
forRelating(k))` returns exactly `E`.  And unconditionally — last or not — for
every `e ∈ E`, `getEntityRelations(model, e, forRelated(k))` contains `r`. -/
theorem c1_amended_bidirectionality (st : IndexerState) (model : FragmentsGroup)
    (k : IfcRel) (inv : InverseAttributePair) (r : Nat) (E : List Nat)
    (l1 l2 : List (Nat × List Nat)) (rm : RelationsMap) (st' : IndexerState)
    (hp : model.hasProperties = true)
    (hc : alookup st.relationMaps model.uuid = none)
    (htab : relToAttributesMap k = some inv)
    (hrecs : getRelationMap model k = l1 ++ (r, E) :: l2)
    (hproc : process st model = Except.ok (rm, st')) :
    ((∀ p ∈ l2, p.1 ≠ r) → getEntityRelations st' model r inv.forRelating = some E) ∧
      ∀ e ∈ E, r ∈ (getEntityRelations st' model e inv.forRelated).getD [] := by
  rw [process_fresh st model hp hc] at hproc
  simp only [Except.ok.injEq, Prod.mk.injEq] at hproc
  obtain ⟨hrm, hst⟩ := hproc
  subst hrm
  subst hst
  have hne := table_hne k inv htab
  have him := alookup_setRelationMap st model (foldKinds model [] ifcRels)
  rcases List.append_of_mem (mem_ifcRels k) with ⟨ks1, ks2, hsplit⟩
  have hknots2 : k ∉ ks2 := by
    have hnd := nodup_ifcRels
    rw [hsplit] at hnd
    exact (List.nodup_cons.mp hnd.of_append_right).1
  have hfold : foldKinds model [] ifcRels
      = foldKinds model (processKind model (foldKinds model [] ks1) k) ks2 := by
    rw [hsplit]
    unfold foldKinds
    rw [List.foldl_append, List.foldl_cons]
  have hpk : processKind model (foldKinds model [] ks1) k
      = foldRecords inv (getRelationMap model k) (foldKinds model [] ks1) :=
    processKind_some _ _ _ _ htab
  constructor
  · intro hlast
    rw [getEntityRelations_eq_lookupSlot _ _ _ _ _ him]
    show lookupSlot (foldKinds model [] ifcRels) r (idxF inv) = some E
    rw [hfold, lookupSlot_foldKinds_pres _ _ _ _ _ (by
      intro k' hk' inv' htab'
      constructor
      · intro heq
        exact hknots2 ((table_idxF_inj k' k inv' inv htab' htab heq) ▸ hk')
      · intro heq
        exact table_idxF_ne_idxR k k' inv inv' htab htab' heq.symm)]
    rw [hpk, hrecs]
    exact lookupSlot_foldRecords_last inv hne l1 l2 r E _ hlast
  · intro e he
    rw [getEntityRelations_eq_lookupSlot _ _ _ _ _ him]
    show r ∈ slotD (foldKinds model [] ifcRels) e (idxR inv)
    rw [hfold]
    apply mem_slotD_foldKinds_mono _ _ _ _ _ _ (by
      intro k' hk' inv' htab'
      exact table_idxF_ne_idxR k' k inv' inv htab' htab)
    rw [hpk, hrecs]
    apply mem_slotD_foldRecords_backref inv hne _ _ r E e _ he
    exact List.mem_append_right l1 (List.mem_cons_self _ l2)

/-- A test model holding two aggregates records with the same relating entity:
`(1, [2])` followed by `(1, [3])`. -/
def c1Model : FragmentsGroup where
  uuid := "m"
  hasProperties := true
  relationRecords := fun k =>
    match k with
    | .IFCRELAGGREGATES => [(1, [2]), (1, [3])]
    | _ => []
  props := fun _ => none
  propsOfType := fun _ => []

/-- The relation map `process` builds for `c1Model`. -/
def c1Rm : RelationsMap := [(1, [(0, [3])]), (2, [(1, [1])]), (3, [(1, [1])])]

/-- The indexer state after processing `c1Model`. -/
def c1St : IndexerState := ⟨[("m", c1Rm)]⟩

/-- C1 witness: in `c1Model` the record `(IFCRELAGGREGATES, 1, [3])` is the
last one relating entity 1, and after processing, entity 1's `IsDecomposedBy`
slot is exactly `[3]` while entity 3's `Decomposes` slot contains 1; and from
the non-last record `(IFCRELAGGREGATES, 1, [2])`, entity 2's `Decomposes` slot
also contains 1. -/
theorem c1_witness :
    process ⟨[]⟩ c1Model = Except.ok (c1Rm, c1St) ∧
    getEntityRelations c1St c1Model 1 InverseAttribute.IsDecomposedBy = some [3] ∧
    1 ∈ (getEntityRelations c1St c1Model 3 InverseAttribute.Decomposes).getD [] ∧
    1 ∈ (getEntityRelations c1St c1Model 2 InverseAttribute.Decomposes).getD [] := by
  refine ⟨by rfl,
    (c1_amended_bidirectionality ⟨[]⟩ c1Model IfcRel.IFCRELAGGREGATES
      ⟨InverseAttribute.IsDecomposedBy, InverseAttribute.Decomposes⟩ 1 [3] [(1, [2])] []
      c1Rm c1St rfl rfl rfl rfl (by rfl)).1 (by simp),
    (c1_amended_bidirectionality ⟨[]⟩ c1Model IfcRel.IFCRELAGGREGATES
      ⟨InverseAttribute.IsDecomposedBy, InverseAttribute.Decomposes⟩ 1 [3] [(1, [2])] []
      c1Rm c1St rfl rfl rfl rfl (by rfl)).2 3 (by decide),
    (c1_amended_bidirectionality ⟨[]⟩ c1Model IfcRel.IFCRELAGGREGATES
      ⟨InverseAttribute.IsDecomposedBy, InverseAttribute.Decomposes⟩ 1 [2] [] [(1, [3])]
      c1Rm c1St rfl rfl rfl rfl (by rfl)).2 2 (by decide)⟩

/-- C1 counterexample: the record `(IFCRELAGGREGATES, 1, [2])` is indexed into
`c1Model`'s relation map, `forRelating(IFCRELAGGREGATES) = IsDecomposedBy`, yet
`getEntityRelations(model, 1, IsDecomposedBy)` returns `[3]`, not the record's
related list `[2]` — a later record of the same kind overwrote the forward
slot, so the claim's universally quantified "returns exactly E" is false. -/
theorem c1_counterexample :
    (1, [2]) ∈ getRelationMap c1Model IfcRel.IFCRELAGGREGATES ∧
    (relToAttributesMap IfcRel.IFCRELAGGREGATES).map InverseAttributePair.forRelating
      = some InverseAttribute.IsDecomposedBy ∧
    process ⟨[]⟩ c1Model = Except.ok (c1Rm, c1St) ∧
    getEntityRelations c1St c1Model 1 InverseAttribute.IsDecomposedBy = some [3] ∧
    some [3] ≠ some ([2] : List Nat) := by
  refine ⟨by decide, rfl, by rfl, by rfl, by decide⟩

/-- A test model holding exactly two records of kind `k`, both with relating
entity `r`, with related lists `E1` then `E2`. -/
def twoRecordModel (k : IfcRel) (r : Nat) (E1 E2 : List Nat) : FragmentsGroup where
  uuid := "model"
  hasProperties := true
  relationRecords := fun kk => if kk = k then [(r, E1), (r, E2)] else []
  props := fun _ => none
  propsOfType := fun _ => []

/-- C2 (confirmed): after indexing two records of the same kind with the same
relating entity, the relating entity's forward slot holds only the last
record's related list, while every related entity's inverse slot holds one
back-reference to the relating entity per occurrence in a record, duplicates
preserved. -/
theorem c2_overwrite_vs_accumulate (k : IfcRel) (inv : InverseAttributePair)
    (r : Nat) (E1 E2 : List Nat) (rm : RelationsMap) (st' : IndexerState)
    (htab : relToAttributesMap k = some inv)
    (hproc : process ⟨[]⟩ (twoRecordModel k r E1 E2) = Except.ok (rm, st')) :
    getEntityRelations st' (twoRecordModel k r E1 E2) r inv.forRelating = some E2 ∧
    ∀ e : Nat, getEntityRelations st' (twoRecordModel k r E1 E2) e inv.forRelated =
      (if e ∈ E1 ∨ e ∈ E2 then some (List.replicate (E1.count e + E2.count e) r)
       else none) := by
  rw [process_fresh ⟨[]⟩ (twoRecordModel k r E1 E2) rfl rfl] at hproc
  simp only [Except.ok.injEq, Prod.mk.injEq] at hproc
  obtain ⟨hrm, hst⟩ := hproc
  subst hrm
  subst hst
  have hne := table_hne k inv htab
  have him := alookup_setRelationMap (⟨[]⟩ : IndexerState) (twoRecordModel k r E1 E2)
    (foldKinds (twoRecordModel k r E1 E2) [] ifcRels)
  rcases List.append_of_mem (mem_ifcRels k) with ⟨ks1, ks2, hsplit⟩
  have hnd := nodup_ifcRels
  rw [hsplit] at hnd
  rcases List.nodup_append.mp hnd with ⟨hnd1, hnd2, hdisj⟩
  have hks1 : ∀ kk ∈ ks1, getRelationMap (twoRecordModel k r E1 E2) kk = [] := by
    intro kk hkk
    show (if kk = k then [(r, E1), (r, E2)] else []) = []
    rw [if_neg (fun (he : kk = k) => hdisj (he ▸ hkk) (List.mem_cons_self k ks2))]
  have hks2 : ∀ kk ∈ ks2, getRelationMap (twoRecordModel k r E1 E2) kk = [] := by
    intro kk hkk
    show (if kk = k then [(r, E1), (r, E2)] else []) = []
    rw [if_neg (fun (he : kk = k) => (List.nodup_cons.mp hnd2).1 (he ▸ hkk))]
  have hrm : foldKinds (twoRecordModel k r E1 E2) [] ifcRels
      = indexRecord inv (indexRecord inv [] r E1) r E2 := by
    rw [hsplit]
    have h1 : foldKinds (twoRecordModel k r E1 E2) [] (ks1 ++ k :: ks2)
        = foldKinds (twoRecordModel k r E1 E2)
            (processKind (twoRecordModel k r E1 E2) (foldKinds (twoRecordModel k r E1 E2) [] ks1) k) ks2 := by
      unfold foldKinds
      rw [List.foldl_append, List.foldl_cons]
    rw [h1, foldKinds_empty_records _ _ _ hks1, processKind_some _ _ _ _ htab,
      foldKinds_empty_records _ _ _ hks2]
    show foldRecords inv (if k = k then [(r, E1), (r, E2)] else []) [] = _
    rw [if_pos rfl, foldRecords_cons, foldRecords_cons]
    rfl
  constructor
  · rw [getEntityRelations_eq_lookupSlot _ _ _ _ _ him]
    show lookupSlot (foldKinds (twoRecordModel k r E1 E2) [] ifcRels) r (idxF inv) = some E2
    rw [hrm, lookupSlot_indexRecord inv hne,
      if_neg (fun hc : idxF inv = idxR inv ∧ r ∈ E2 => hne hc.1), if_pos ⟨rfl, rfl⟩]
  · intro e
    rw [getEntityRelations_eq_lookupSlot _ _ _ _ _ him]
    show lookupSlot (foldKinds (twoRecordModel k r E1 E2) [] ifcRels) e (idxR inv) = _
    rw [hrm, lookupSlot_indexRecord inv hne]
    have hbase : lookupSlot ([] : RelationsMap) e (idxR inv) = none := rfl
    have hsd0 : slotD ([] : RelationsMap) e (idxR inv) = [] := rfl
    by_cases he2 : e ∈ E2
    · rw [if_pos ⟨rfl, he2⟩]
      have hsd1 : slotD (indexRecord inv [] r E1) e (idxR inv)
          = List.replicate (E1.count e) r := by
        unfold slotD
        rw [lookupSlot_indexRecord inv hne]
        by_cases he1 : e ∈ E1
        · rw [if_pos ⟨rfl, he1⟩]
          simp only [Option.getD_some]
          rw [hsd0, List.nil_append]
        · rw [if_neg (fun hc => he1 hc.2),
            if_neg (fun hc : e = r ∧ idxR inv = idxF inv => hne hc.2.symm), hbase,
            List.count_eq_zero.mpr he1]
          rfl
      rw [hsd1, if_pos (Or.inr he2), ← List.replicate_add]
    · rw [if_neg (fun hc => he2 hc.2),
        if_neg (fun hc : e = r ∧ idxR inv = idxF inv => hne hc.2.symm),
        lookupSlot_indexRecord inv hne,
        if_neg (fun hc : e = r ∧ idxR inv = idxF inv => hne hc.2.symm), hbase]
      by_cases he1 : e ∈ E1
      · rw [if_pos ⟨rfl, he1⟩, if_pos (Or.inl he1), hsd0, List.nil_append,
          List.count_eq_zero.mpr he2, Nat.add_zero]
      · rw [if_neg (fun hc => he1 hc.2), if_neg (fun hc => hc.elim he1 he2)]

/-- The relation map built for `twoRecordModel IFCRELAGGREGATES 1 [2,3] [3,4]`. -/
def c2Rm : RelationsMap :=
  [(1, [(0, [3, 4])]), (2, [(1, [1])]), (3, [(1, [1, 1])]), (4, [(1, [1])])]

/-- The indexer state after processing that model. -/
def c2St : IndexerState := ⟨[("model", c2Rm)]⟩

/-- C2 witness: with records `(1, [2,3])` then `(1, [3,4])` of the aggregates
kind, entity 1's forward slot is `[3,4]` (last record only) and entity 3's
inverse slot is `[1, 1]` (one back-reference per record). -/
theorem c2_witness :
    process ⟨[]⟩ (twoRecordModel IfcRel.IFCRELAGGREGATES 1 [2, 3] [3, 4])
      = Except.ok (c2Rm, c2St) ∧
    getEntityRelations c2St (twoRecordModel IfcRel.IFCRELAGGREGATES 1 [2, 3] [3, 4]) 1
      InverseAttribute.IsDecomposedBy = some [3, 4] ∧
    getEntityRelations c2St (twoRecordModel IfcRel.IFCRELAGGREGATES 1 [2, 3] [3, 4]) 3
      InverseAttribute.Decomposes = some [1, 1] := by
  refine ⟨by rfl, ?_, ?_⟩
  · exact (c2_overwrite_vs_accumulate IfcRel.IFCRELAGGREGATES
      ⟨InverseAttribute.IsDecomposedBy, InverseAttribute.Decomposes⟩ 1 [2, 3] [3, 4]
      c2Rm c2St rfl (by rfl)).1
  · exact ((c2_overwrite_vs_accumulate IfcRel.IFCRELAGGREGATES
      ⟨InverseAttribute.IsDecomposedBy, InverseAttribute.Decomposes⟩ 1 [2, 3] [3, 4]
      c2Rm c2St rfl (by rfl)).2 3).trans (by decide)

/-- C3 (confirmed): once `process` has succeeded for a model, calling it again
on the resulting state returns the identical map and leaves the state
unchanged — the cached map is returned without re-indexing. -/
theorem c3_process_idempotent (st : IndexerState) (model : FragmentsGroup)
    (rm : RelationsMap) (st' : IndexerState)
    (hp : model.hasProperties = true)
    (hfirst : process st model = Except.ok (rm, st')) :
    process st' model = Except.ok (rm, st') := by
  unfold process at hfirst ⊢
  rw [hp, if_neg (by decide : ¬(true = false))] at hfirst ⊢
  cases hcache : alookup st.relationMaps model.uuid with
  | some rm0 =>
    rw [hcache] at hfirst
    simp only [Except.ok.injEq, Prod.mk.injEq] at hfirst
    obtain ⟨h1, h2⟩ := hfirst
    subst h1
    subst h2
    rw [hcache]
  | none =>
    rw [hcache] at hfirst
    simp only [Except.ok.injEq, Prod.mk.injEq] at hfirst
    obtain ⟨h1, h2⟩ := hfirst
    subst h1
    subst h2
    rw [alookup_setRelationMap]

theorem processFromWebIfc_body_eq (inv : InverseAttributePair) (acc : RelationsMap)
    (relAttrs : List (String × RelAttrVal)) :
    (match (relAttrs.map Prod.fst).find? (fun key => strStartsWith key "Relating"),
           (relAttrs.map Prod.fst).find? (fun key => strStartsWith key "Related") with
     | some kg, some kd =>
       match alookup relAttrs kg, alookup relAttrs kd with
       | some (.handle relatingID), some (.handleList relatedIDs) =>
         indexRecord inv acc relatingID relatedIDs
       | _, _ => acc
     | _, _ => acc)
    = (match extractRelRecord relAttrs with
       | some p => indexRecord inv acc p.1 p.2
       | none => acc) := by
  unfold extractRelRecord
  cases (relAttrs.map Prod.fst).find? (fun key => strStartsWith key "Relating") with
  | none => rfl
  | some kg =>
    cases (relAttrs.map Prod.fst).find? (fun key => strStartsWith key "Related") with
    | none => rfl
    | some kd =>
      show (match alookup relAttrs kg, alookup relAttrs kd with
            | some (RelAttrVal.handle relatingID), some (RelAttrVal.handleList relatedIDs) =>
              indexRecord inv acc relatingID relatedIDs
            | _, _ => acc)
          = (match (match alookup relAttrs kg, alookup relAttrs kd with
              | some (RelAttrVal.handle relatingID), some (RelAttrVal.handleList relatedIDs) =>
                some (relatingID, relatedIDs)
              | _, _ => none) with
             | some p => indexRecord inv acc p.1 p.2
             | none => acc)
      cases alookup relAttrs kg with
      | none => rfl
      | some v =>
        cases alookup relAttrs kd with
        | none => cases v <;> rfl
        | some w => cases v <;> cases w <;> rfl

theorem foldl_extract_eq (inv : InverseAttributePair) (ifcApi : WebIfcApi)
    (ids : List Nat) :
    ∀ acc : RelationsMap,
    ids.foldl (fun acc lineID =>
        match extractRelRecord (ifcApi.itemProperties lineID) with
        | some p => indexRecord inv acc p.1 p.2
        | none => acc) acc
      = foldRecords inv
          (ids.filterMap (fun lineID => extractRelRecord (ifcApi.itemProperties lineID))) acc := by
  induction ids with
  | nil => intro acc; rfl
  | cons id ids ih =>
    intro acc
    rw [List.foldl_cons, List.filterMap_cons]
    cases hx : extractRelRecord (ifcApi.itemProperties id) with
    | none => exact ih acc
    | some p => rw [foldRecords_cons]; exact ih _

/-- C5 (confirmed): when both ingestion paths see the same relation records —
the records `processFromWebIfc` extracts per kind equal the records the parsed
model supplies to `process`'s callback — and `process` runs fresh, the two
paths build the identical relation map. -/
theorem c5_ingestion_paths_equal (st : IndexerState) (model : FragmentsGroup)
    (ifcApi : WebIfcApi) (rm : RelationsMap) (st' : IndexerState)
    (hp : model.hasProperties = true)
    (hc : alookup st.relationMaps model.uuid = none)
    (hsame : ∀ k : IfcRel, extractedRecords ifcApi k = getRelationMap model k)
    (hproc : process st model = Except.ok (rm, st')) :
    processFromWebIfc ifcApi = rm := by
  rw [process_fresh st model hp hc] at hproc
  simp only [Except.ok.injEq, Prod.mk.injEq] at hproc
  obtain ⟨hrm, _⟩ := hproc
  rw [← hrm]
  unfold processFromWebIfc foldKinds
  apply List.foldl_ext
  intro acc k _
  cases htab : relToAttributesMap k with
  | none =>
    simp only [htab]
    rw [processKind_none model acc k htab]
  | some inv =>
    simp only [htab]
    rw [processKind_some model acc k inv htab, ← hsame k]
    unfold extractedRecords
    trans ((ifcApi.lineIDsWithType k).foldl (fun acc lineID =>
        match extractRelRecord (ifcApi.itemProperties lineID) with
        | some p => indexRecord inv acc p.1 p.2
        | none => acc) acc)
    · apply List.foldl_ext
      intro a lineID _
      exact processFromWebIfc_body_eq inv a (ifcApi.itemProperties lineID)
    · exact foldl_extract_eq inv ifcApi (ifcApi.lineIDsWithType k) acc

/-- A WebIFC surface with one aggregates line whose raw attributes extract to
the record `(1, [2, 3])`. -/
def c5Api : WebIfcApi where
  lineIDsWithType := fun k =>
    match k with
    | .IFCRELAGGREGATES => [100]
    | _ => []
  itemProperties := fun id =>
    match id with
    | 100 => [("GlobalId", .handle 9), ("RelatingObject", .handle 1),
              ("RelatedObjects", .handleList [2, 3])]
    | _ => []

/-- A parsed model supplying the same single record `(1, [2, 3])` of the
aggregates kind. -/
def c5Model : FragmentsGroup where
  uuid := "p"
  hasProperties := true
  relationRecords := fun k =>
    match k with
    | .IFCRELAGGREGATES => [(1, [2, 3])]
    | _ => []
  props := fun _ => none
  propsOfType := fun _ => []

/-- The relation map both ingestion paths build for that record. -/
def c5Rm : RelationsMap := [(1, [(0, [2, 3])]), (2, [(1, [1])]), (3, [(1, [1])])]

/-- The indexer state after `process` on `c5Model`. -/
def c5St : IndexerState := ⟨[("p", c5Rm)]⟩

/-- C5 witness: on the concrete record `(1, [2, 3])`, `process` and
`processFromWebIfc` build the same map. -/
theorem c5_witness :
    process ⟨[]⟩ c5Model = Except.ok (c5Rm, c5St) ∧
    processFromWebIfc c5Api = c5Rm :=
  ⟨by rfl, c5_ingestion_paths_equal ⟨[]⟩ c5Model c5Api c5Rm c5St rfl rfl
    (fun k => by cases k <;> decide) (by rfl)⟩

/-- A state whose only model "m" indexes entity 1 with a single slot 0; slot 7
(`IsDefinedBy`) is absent. -/
def c6St : IndexerState := ⟨[("m", [(1, [(0, [2])])])]⟩

/-- A model handle with UUID "m" for querying `c6St`. -/
def c6Model : FragmentsGroup where
  uuid := "m"
  hasProperties := true
  relationRecords := fun _ => []
  props := fun _ => none
  propsOfType := fun _ => []

/-- C6 counterexample: the model is indexed, entity 1 has a slot table, and the
role `IsDefinedBy` is recognized (its index is not -1), yet `getEntityRelations`
returns null because the slot table has no entry at that role's index —  a
fourth null case the claim's "exactly when" omits. -/
theorem c6_counterexample :
    getEntityRelations c6St c6Model 1 InverseAttribute.IsDefinedBy = none ∧
    alookup c6St.relationMaps c6Model.uuid = some [(1, [(0, [2])])] ∧
    alookup [((1 : Nat), [((0 : Int), [(2 : Nat)])])] 1 = some [(0, [2])] ∧
    jsIndexOf inverseAttributes InverseAttribute.IsDefinedBy ≠ -1 :=
  ⟨rfl, rfl, rfl, by decide⟩

/-- C6 (amended): `getEntityRelations` returns null exactly when the model has
no index, the entity has no slot table, the role name is unrecognized, or the
entity's slot table has no entry at the role's slot index; and it returns an
empty list exactly when the slot table stores an empty list at that index. -/
theorem c6_amended_null_characterization (st : IndexerState) (model : FragmentsGroup)
    (eid : Nat) (a : InverseAttribute) :
    (getEntityRelations st model eid a = none ↔
      alookup st.relationMaps model.uuid = none
      ∨ (∃ im, alookup st.relationMaps model.uuid = some im ∧ alookup im eid = none)
      ∨ jsIndexOf inverseAttributes a = -1
      ∨ (∃ im row, alookup st.relationMaps model.uuid = some im ∧ alookup im eid = some row
          ∧ alookup row (jsIndexOf inverseAttributes a) = none))
    ∧ (getEntityRelations st model eid a = some [] ↔
      ∃ im row, alookup st.relationMaps model.uuid = some im ∧ alookup im eid = some row
        ∧ alookup row (jsIndexOf inverseAttributes a) = some []) := by
  cases him : alookup st.relationMaps model.uuid with
  | none =>
    have hval : getEntityRelations st model eid a = none := by
      unfold getEntityRelations
      rw [him]
    constructor
    · rw [hval]
      exact ⟨fun _ => Or.inl rfl, fun _ => rfl⟩
    · rw [hval]
      constructor
      · intro h
        exact absurd h (by simp)
      · rintro ⟨im, row, him', _⟩
        exact Option.noConfusion him'
  | some im =>
    have hval : getEntityRelations st model eid a
        = (alookup im eid).bind (fun row => alookup row (jsIndexOf inverseAttributes a)) :=
      getEntityRelations_eq_lookupSlot st model eid a im him
    cases hrow : alookup im eid with
    | none =>
      rw [hrow] at hval
      constructor
      · rw [hval]
        exact ⟨fun _ => Or.inr (Or.inl ⟨im, rfl, hrow⟩), fun _ => rfl⟩
      · rw [hval]
        constructor
        · intro h
          exact absurd h (by simp)
        · rintro ⟨im', row, him', hrow', _⟩
          cases him'
          rw [hrow] at hrow'
          exact absurd hrow' (by simp)
    | some row =>
      rw [hrow] at hval
      simp only [Option.some_bind] at hval
      cases hslot : alookup row (jsIndexOf inverseAttributes a) with
      | none =>
        rw [hslot] at hval
        constructor
        · rw [hval]
          exact ⟨fun _ => Or.inr (Or.inr (Or.inr ⟨im, row, rfl, hrow, hslot⟩)), fun _ => rfl⟩
        · rw [hval]
          constructor
          · intro h
            exact absurd h (by simp)
          · rintro ⟨im', row', him', hrow', hslot'⟩
            cases him'
            rw [hrow] at hrow'
            cases hrow'
            rw [hslot] at hslot'
            exact absurd hslot' (by simp)
      | some relations =>
        rw [hslot] at hval
        constructor
        · rw [hval]
          constructor
          · intro h
            exact absurd h (by simp)
          · rintro (h1 | ⟨im', him', hrow'⟩ | h3 | ⟨im', row', him', hrow', hslot'⟩)
            · exact Option.noConfusion h1
            · cases him'
              rw [hrow] at hrow'
              exact absurd hrow' (by simp)
            · exact absurd h3 (jsIndexOf_ne_neg_one a)
            · cases him'
              rw [hrow] at hrow'
              cases hrow'
              rw [hslot] at hslot'
              exact absurd hslot' (by simp)
        · rw [hval]
          constructor
          · intro h
            exact ⟨im, row, rfl, hrow, hslot.trans h⟩
          · rintro ⟨im', row', him', hrow', hslot'⟩
            cases him'
            rw [hrow] at hrow'
            cases hrow'
            rw [hslot] at hslot'
            exact hslot'

theorem foldl_recSet_disjoint {α β : Type} [DecidableEq α] (l : List (α × β)) :
    ∀ acc : List (α × β), (l.map Prod.fst).Nodup →
    (∀ k ∈ l.map Prod.fst, k ∉ acc.map Prod.fst) →
    l.foldl (fun a q => recSet a q.1 q.2) acc = acc ++ l := by
  induction l with
  | nil => intro acc _ _; rw [List.foldl_nil, List.append_nil]
  | cons q qs ih =>
    intro acc hnd hdisj
    simp only [List.map_cons, List.nodup_cons] at hnd
    rw [List.foldl_cons,
      recSet_of_not_mem acc q.1 q.2 (hdisj q.1 (by simp)), Prod.mk.eta,
      ih (acc ++ [q]) hnd.2 ?_, List.append_assoc, List.singleton_append]
    intro k hk
    rw [List.map_append, List.mem_append]
    rintro (h1 | h2)
    · exact hdisj k (by simp [hk]) h1
    · simp only [List.map_cons, List.map_nil, List.mem_singleton] at h2
      exact hnd.1 (h2 ▸ hk)

/-- Building the plain object from a map with unique keys copies the entries
verbatim: `serializeRelations` is the identity on the entry list. -/
theorem serializeRelations_id (m : RelationsMap)
    (hout : (m.map Prod.fst).Nodup)
    (hin : ∀ p ∈ m, (p.2.map Prod.fst).Nodup) :
    serializeRelations m = m := by
  unfold serializeRelations
  have aux : ∀ (l : List (Nat × List (Int × List Nat))) (acc : List (Nat × List (Int × List Nat))),
      (l.map Prod.fst).Nodup → (∀ p ∈ l, (p.2.map Prod.fst).Nodup) →
      (∀ k ∈ l.map Prod.fst, k ∉ acc.map Prod.fst) →
      l.foldl (fun object p =>
        let base := (alookup object p.1).getD []
        let inner := p.2.foldl (fun acc q => recSet acc q.1 q.2) base
        recSet object p.1 inner) acc = acc ++ l := by
    intro l
    induction l with
    | nil => intro acc _ _ _; rw [List.foldl_nil, List.append_nil]
    | cons p ps ih =>
      intro acc hnd hinner hdisj
      simp only [List.map_cons, List.nodup_cons] at hnd
      have hbase : alookup acc p.1 = none :=
        (alookup_eq_none_iff acc p.1).mpr (hdisj p.1 (by simp))
      rw [List.foldl_cons]
      show ps.foldl _ (recSet acc p.1
        (p.2.foldl (fun acc q => recSet acc q.1 q.2) ((alookup acc p.1).getD []))) = _
      rw [hbase]
      show ps.foldl _ (recSet acc p.1
        (p.2.foldl (fun acc q => recSet acc q.1 q.2) [])) = _
      rw [foldl_recSet_disjoint p.2 [] (hinner p (by simp)) (by simp),
        List.nil_append,
        recSet_of_not_mem acc p.1 p.2 (hdisj p.1 (by simp)), Prod.mk.eta,
        ih (acc ++ [p]) hnd.2 (fun q hq => hinner q (List.mem_cons_of_mem p hq)) ?_,
        List.append_assoc, List.singleton_append]
      intro k hk
      rw [List.map_append, List.mem_append]
      rintro (h1 | h2)
      · exact hdisj k (by simp [hk]) h1
      · simp only [List.map_cons, List.map_nil, List.mem_singleton] at h2
        exact hnd.1 (h2 ▸ hk)
  exact aux m [] hout hin (by simp)

/-- Parsing the object rebuilds, entry by entry in ascending key order, a map
whose entries are the sorted entries with sorted inner slot tables. -/
theorem getRelationsMapFromJSON_eq (obj : List (Nat × List (Int × List Nat)))
    (hout : (obj.map Prod.fst).Nodup)
    (hin : ∀ p ∈ obj, (p.2.map Prod.fst).Nodup) :
    getRelationsMapFromJSON obj = (sortByKey obj).map (fun p => (p.1, sortByKey p.2)) := by
  unfold getRelationsMapFromJSON
  have hnds : ((sortByKey obj).map Prod.fst).Nodup :=
    (((sortByKey_perm obj).map Prod.fst).nodup_iff).mpr hout
  have hins : ∀ p ∈ sortByKey obj, (p.2.map Prod.fst).Nodup :=
    fun p hp => hin p ((sortByKey_perm obj).mem_iff.mp hp)
  have aux : ∀ (l : List (Nat × List (Int × List Nat))) (acc : List (Nat × List (Int × List Nat))),
      (l.map Prod.fst).Nodup → (∀ p ∈ l, (p.2.map Prod.fst).Nodup) →
      (∀ k ∈ l.map Prod.fst, k ∉ acc.map Prod.fst) →
      l.foldl (fun indexMap p =>
        let relationMap := (sortByKey p.2).foldl (fun acc q => recSet acc q.1 q.2) []
        recSet indexMap p.1 relationMap) acc
      = acc ++ l.map (fun p => (p.1, sortByKey p.2)) := by
    intro l
    induction l with
    | nil => intro acc _ _ _; rw [List.foldl_nil, List.map_nil, List.append_nil]
    | cons p ps ih =>
      intro acc hnd hinner hdisj
      simp only [List.map_cons, List.nodup_cons] at hnd
      have hsnd : ((sortByKey p.2).map Prod.fst).Nodup :=
        (((sortByKey_perm p.2).map Prod.fst).nodup_iff).mpr (hinner p (by simp))
      rw [List.foldl_cons]
      show ps.foldl _ (recSet acc p.1
        ((sortByKey p.2).foldl (fun acc q => recSet acc q.1 q.2) [])) = _
      rw [foldl_recSet_disjoint (sortByKey p.2) [] hsnd (by simp), List.nil_append,
        recSet_of_not_mem acc p.1 (sortByKey p.2) (hdisj p.1 (by simp)),
        ih (acc ++ [(p.1, sortByKey p.2)]) hnd.2
          (fun q hq => hinner q (List.mem_cons_of_mem p hq)) ?_,
        List.append_assoc, List.singleton_append, List.map_cons]
      intro k hk
      rw [List.map_append, List.mem_append]
      rintro (h1 | h2)
      · exact hdisj k (by simp [hk]) h1
      · simp only [List.map_cons, List.map_nil, List.mem_singleton] at h2
        exact hnd.1 (h2 ▸ hk)
  rw [aux (sortByKey obj) [] hnds hins (by simp), List.nil_append]

/-- Structural equality of relation maps: the same entities are present, and
every entity's every slot stores the same related-identifier list, compared in
order. -/
def relMapStructEq (a b : RelationsMap) : Prop :=
  (∀ eid : Nat, (alookup a eid).isSome = (alookup b eid).isSome) ∧
  (∀ (eid : Nat) (rid : Int), lookupSlot a eid rid = lookupSlot b eid rid)

/-- C4 (confirmed): serializing a relation map (with the `Map` representation
invariant of unique keys) and parsing it back yields a map structurally equal
to the original: every entity, every role slot, and every related identifier is
preserved, lists in order. -/
theorem c4_serialization_roundtrip (m : RelationsMap)
    (hout : (m.map Prod.fst).Nodup)
    (hin : ∀ p ∈ m, (p.2.map Prod.fst).Nodup) :
    relMapStructEq (getRelationsMapFromJSON (serializeRelations m)) m := by
  rw [serializeRelations_id m hout hin, getRelationsMapFromJSON_eq m hout hin]
  have hmap : ∀ eid : Nat,
      alookup ((sortByKey m).map (fun p => (p.1, sortByKey p.2))) eid
        = (alookup m eid).map sortByKey := by
    intro eid
    rw [alookup_map_snd (sortByKey m) sortByKey eid, alookup_sortByKey m hout eid]
  constructor
  · intro eid
    rw [hmap eid]
    cases alookup m eid <;> rfl
  · intro eid rid
    unfold lookupSlot
    rw [hmap eid]
    cases hrels : alookup m eid with
    | none => rfl
    | some rels =>
      simp only [Option.map_some, Option.some_bind]
      exact alookup_sortByKey rels (hin (eid, rels) (alookup_mem hrels)) rid

/-- A concrete two-entity relation map for the round-trip witness. -/
def c4Map : RelationsMap := [(2, [(1, [5])]), (1, [(0, [2, 3]), (7, [])])]

/-- C4 witness: the round-trip preserves entity presence and slot contents of
`c4Map`, including the entity stored out of ascending order and the
empty slot. -/
theorem c4_witness :
    (alookup (getRelationsMapFromJSON (serializeRelations c4Map)) 1).isSome
      = (alookup c4Map 1).isSome ∧
    lookupSlot (getRelationsMapFromJSON (serializeRelations c4Map)) 1 0
      = lookupSlot c4Map 1 0 ∧
    lookupSlot (getRelationsMapFromJSON (serializeRelations c4Map)) 1 7
      = lookupSlot c4Map 1 7 ∧
    lookupSlot (getRelationsMapFromJSON (serializeRelations c4Map)) 2 1
      = lookupSlot c4Map 2 1 :=
  ⟨(c4_serialization_roundtrip c4Map (by decide) (by decide)).1 1,
   (c4_serialization_roundtrip c4Map (by decide) (by decide)).2 1 0,
   (c4_serialization_roundtrip c4Map (by decide) (by decide)).2 1 7,
   (c4_serialization_roundtrip c4Map (by decide) (by decide)).2 2 1⟩

/-- A property-less-records model for the idempotence witness. -/
def c3Model : FragmentsGroup where
  uuid := "w"
  hasProperties := true
  relationRecords := fun _ => []
  props := fun _ => none
  propsOfType := fun _ => []

/-- C3 witness: a second `process` call on the state produced by the first
returns the same (here empty) map and the same state. -/
theorem c3_witness :
    c3Model.hasProperties = true ∧
    process (IndexerState.mk [("w", [])]) c3Model
      = Except.ok ([], IndexerState.mk [("w", [])]) :=
  ⟨rfl, c3_process_idempotent ⟨[]⟩ c3Model [] (IndexerState.mk [("w", [])]) rfl (by rfl)⟩

/-!
## IDS Property facet: data model

From `IDSSpecifications/src/facets/Property.ts`.  The entity type codes below
stand for the corresponding members of the external web-ifc enumeration; their
numeric values are opaque tags and only their distinctness matters to the code.
-/

def IFCPROPERTYSET : Int := 1
def IFCELEMENTQUANTITY : Int := 2
def IFCPROPERTYLISTVALUE : Int := 3
def IFCPROPERTYENUMERATEDVALUE : Int := 4
def IFCCOMPLEXPROPERTY : Int := 5
def IFCPHYSICALCOMPLEXQUANTITY : Int := 6
def IFCPROPERTYSINGLEVALUE : Int := 7

/-- The list `_unsupportedTypes`: complex items are excluded from candidacy. -/
def unsupportedTypes : List Int := [IFCCOMPLEXPROPERTY, IFCPHYSICALCOMPLEXQUANTITY]

/-- Modelled from the spec: an `IDSFacetParameter` (declared outside `src/`) is
a constraint on a scalar value — an exact simple value or an enumeration of
candidate values (the pattern and numeric-bounds kinds the spec also lists are
not exercised by any claim under study and are omitted). -/
inductive IDSFacetParameter where
  | simple (parameter : JsVal)
  | enumeration (options : List JsVal)
deriving DecidableEq

/-- The raw `parameter` payload of a facet parameter as recorded in a check's
`requiredValue` field. -/
inductive CheckVal where
  | null
  | val (v : JsVal)
  | listVal (vs : List JsVal)
deriving DecidableEq

/-- Record `IDSCheck`: one evaluated constraint outcome. -/
structure IDSCheck where
  parameter : String
  currentValue : CheckVal
  pass : Bool
  requiredValue : CheckVal
deriving DecidableEq

inductive IDSCardinality where
  | required
  | optional
  | prohibited
deriving DecidableEq

/-- The `IDSProperty` facet's own fields (`cardinality` lives on the `IDSFacet`
base class; `uri` and `instructions` only affect XML serialization). -/
structure IDSPropertyFacet where
  propertySet : IDSFacetParameter
  baseName : IDSFacetParameter
  value : Option IDSFacetParameter
  dataType : Option String
  cardinality : IDSCardinality
deriving DecidableEq

/-- Record `IDSCheckResult`: per-entity verdict with its accumulated checks. -/
structure IDSCheckResult where
  guid : Option JsVal
  expressID : Nat
  pass : Bool
  checks : List IDSCheck
  cardinality : IDSCardinality
deriving DecidableEq

/-- JavaScript `String.prototype.endsWith`, in an executable form. -/
def strEndsWith (s suf : String) : Bool :=
  List.isSuffixOf suf.data s.data

/-- The characters JavaScript `String.prototype.trim` strips (the common
subset of the WhiteSpace and LineTerminator productions). -/
def jsWhitespace (c : Char) : Bool :=
  c = ' ' || c = '\t' || c = '\n' || c = '\r' || c = '\x0b' || c = '\x0c'

/-- Tests `value.trim() === ""`: every character is whitespace.  A type-1 value is a
string in the external data; on any other shape `.trim` would not exist, and
the guard is modelled as false. -/
def jsTrimEmptyVal (v : JsVal) : Bool :=
  match v with
  | .str s => s.data.all jsWhitespace
  | .num _ => false

/-- JavaScript `String(x)` on a facet parameter payload. -/
def jsToString (v : JsVal) : String :=
  match v with
  | .str s => s
  | .num n => toString n

/-- Reads `attr.name` of an attribute value: defined for a leaf `{ name, type,
value }`, `undefined` for an array or an absent attribute. -/
def attrName : Option Attr → Option String
  | some (.scalar v) => some v.name
  | _ => none

/-- Reads `attr.value` of an attribute value, `undefined` for an array or an absent
attribute. -/
def attrValue : Option Attr → Option JsVal
  | some (.scalar v) => some v.value
  | _ => none

/-- The `parameter` payload as a check record's `requiredValue`. -/
def paramRequiredValue : IDSFacetParameter → CheckVal
  | .simple parameter => .val parameter
  | .enumeration options => .listVal options

/-- Modelled from the spec: `IDSFacet.evalRequirement` (base class not under
`src/`): evaluate a candidate scalar against a facet parameter — exact
equality for a simple value, membership for an enumeration; a null/undefined
candidate against a concrete parameter is a failed match. -/
def evalRequirement (value : Option JsVal) (p : IDSFacetParameter) : Bool :=
  match value with
  | none => false
  | some v =>
    match p with
    | .simple parameter => decide (v = parameter)
    | .enumeration options => options.any (fun o => decide (o = v))

/-- Modelled from the spec: the evidence-producing variant of
`evalRequirement` that also appends a check record with the candidate, the
required value and the verdict. -/
def evalRequirementChecked (value : Option JsVal) (p : IDSFacetParameter) (label : String)
    (checks : List IDSCheck) : Bool × List IDSCheck :=
  let result := evalRequirement value p
  (result,
   checks ++ [{ parameter := label,
                currentValue := match value with
                  | some v => CheckVal.val v
                  | none => CheckVal.null,
                pass := result,
                requiredValue := paramRequiredValue p }])

/-- Method `getValueKey`: the first attribute key ending in "Value" or "Values". -/
def getValueKey (attrs : Bag) : Option String :=
  (attrs.entries.map Prod.fst).find? (fun n => strEndsWith n "Value" || strEndsWith n "Values")

/-- Method `getItemsAttrName`: two sequential conditional assignments, the second
overriding the first. -/
def getItemsAttrName (type : Int) : Option String :=
  let propsListName : Option String := none
  let propsListName := if type = IFCPROPERTYSET then some "HasProperties" else propsListName
  if type = IFCELEMENTQUANTITY then some "Quantities" else propsListName

/-!
## IDS Property facet: operations
-/

/-- Method `evalValue` (lines 322-395).  With a value constraint: no value key emits a
failing check; an `IFCLABEL` leaf coerces a simple constraint's payload to a
string; a list/enumerated array passes when any element matches, recording the
full element list as `currentValue`; otherwise the scalar is matched with
evidence.  Without a value constraint: a logical-unknown value
(`type === 3 && value === 2`) fails, an all-whitespace string (`type === 1`)
fails, everything else passes. -/
def evalValue (f : IDSPropertyFacet) (attrs : Bag) (checks : List IDSCheck) :
    Bool × List IDSCheck :=
  let valueKey := getValueKey attrs
  match f.value with
  | some fv =>
    match valueKey with
    | none =>
      (false, checks ++ [{ parameter := "Value", currentValue := .null, pass := false,
                           requiredValue := paramRequiredValue fv }])
    | some key =>
      let valueAttr := alookup attrs.entries key
      let facetValue :=
        if attrName valueAttr = some "IFCLABEL" then
          match fv with
          | .simple parameter => IDSFacetParameter.simple (.str (jsToString parameter))
          | p => p
        else fv
      if attrs.typeCode = IFCPROPERTYLISTVALUE ∨ attrs.typeCode = IFCPROPERTYENUMERATEDVALUE then
        match valueAttr with
        | some (.arr vs) =>
          let values := vs.map (fun value => value.value)
          let matchingValue := vs.find? (fun value => evalRequirement (some value.value) facetValue)
          (matchingValue.isSome,
           checks ++ [{ parameter := "Value", currentValue := .listVal values,
                        pass := matchingValue.isSome,
                        requiredValue := paramRequiredValue facetValue }])
        | _ => evalRequirementChecked (attrValue valueAttr) facetValue "Value" checks
      else
        evalRequirementChecked (attrValue valueAttr) facetValue "Value" checks
  | none =>
    match valueKey with
    | none => (true, checks)
    | some key =>
      match alookup attrs.entries key with
      | some (.scalar value) =>
        if value.typeTag = 3 ∧ value.value = JsVal.num 2 then
          (false, checks ++ [{ parameter := "Value", currentValue := .null, pass := false,
                               requiredValue := .null }])
        else if value.typeTag = 1 ∧ jsTrimEmptyVal value.value = true then
          (false, checks ++ [{ parameter := "Value", currentValue := .val (.str ""),
                               pass := false, requiredValue := .null }])
        else (true, checks)
      | _ => (true, checks)

/-- Method `evalDataType` (lines 397-431): compare the declared type label of the
value (of the first element for a non-empty list/enumerated value) against the
facet's `dataType` as a simple parameter.  (For an item with no value key the
source reads `.name` of an undefined attribute; here the candidate is the
absent value, which fails the match — no claim exercises that corner.) -/
def evalDataType (f : IDSPropertyFacet) (attrs : Bag) (checks : List IDSCheck) :
    Bool × List IDSCheck :=
  match f.dataType with
  | none => (true, checks)
  | some dataType =>
    let valueKey := getValueKey attrs
    let valueAttr :=
      match valueKey with
      | some key => alookup attrs.entries key
      | none => none
    if attrs.typeCode = IFCPROPERTYLISTVALUE ∨ attrs.typeCode = IFCPROPERTYENUMERATEDVALUE then
      match valueAttr with
      | some (.arr (v0 :: _)) =>
        evalRequirementChecked (some (.str v0.name)) (.simple (.str dataType)) "DataType" checks
      | _ =>
        evalRequirementChecked ((attrName valueAttr).map JsVal.str)
          (.simple (.str dataType)) "DataType" checks
    else
      evalRequirementChecked ((attrName valueAttr).map JsVal.str)
        (.simple (.str dataType)) "DataType" checks

/-- A property/quantity set as `getPsets` returns it.  The source
`structuredClone`s the set's attribute bag and replaces, in place, its
props-list attribute (the key `getItemsAttrName` yields for the set's type) by
the resolved property bags; `test` recomputes the same key with the same
function, so the resolved bags are carried alongside the set here. -/
structure RSet where
  set : Bag
  items : List Bag
deriving DecidableEq

/-- Method `getPsets` (lines 287-317): resolve the entity's `IsDefinedBy` relations,
keep the property/quantity sets among them, and attach each set's resolved
item bags. -/
def getPsets (st : IndexerState) (model : FragmentsGroup) (expressID : Nat) : List RSet :=
  match getEntityRelations st model expressID InverseAttribute.IsDefinedBy with
  | none => []
  | some definitions =>
    definitions.foldl (fun sets definitionID =>
      match model.props (definitionID : Int) with
      | none => sets
      | some attrs =>
        match getItemsAttrName attrs.typeCode with
        | none => sets
        | some propsListName =>
          let handles :=
            match alookup attrs.entries propsListName with
            | some (.arr hs) => hs
            | _ => []
          let props := handles.foldl (fun acc handle =>
            match handle.value with
            | .num v =>
              match model.props v with
              | some propAttrs => acc ++ [propAttrs]
              | none => acc
            | _ => acc) []
          sets ++ [{ set := attrs, items := props }]) []

/-- One step of the property-set filter (lines 142-156): test the set's name,
push a passing "PropertySet" check for a match, no record for a miss. -/
def psetFilterStep (f : IDSPropertyFacet) (acc : List RSet × List IDSCheck) (set : RSet) :
    List RSet × List IDSCheck :=
  if evalRequirement set.set.nameValue f.propertySet then
    (acc.1 ++ [set],
     acc.2 ++ [{ parameter := "PropertySet",
                 currentValue := match set.set.nameValue with
                   | some v => CheckVal.val v
                   | none => CheckVal.null,
                 pass := true,
                 requiredValue := paramRequiredValue f.propertySet }])
  else acc

/-- One step of the item filter (lines 181-198): skip unsupported complex
kinds, test the item's name, push a passing "BaseName" check for a match. -/
def itemFilterStep (f : IDSPropertyFacet) (acc : List Bag × List IDSCheck) (item : Bag) :
    List Bag × List IDSCheck :=
  if unsupportedTypes.contains item.typeCode then acc
  else if evalRequirement item.nameValue f.baseName then
    (acc.1 ++ [item],
     acc.2 ++ [{ parameter := "BaseName",
                 currentValue := match item.nameValue with
                   | some v => CheckVal.val v
                   | none => CheckVal.null,
                 pass := true,
                 requiredValue := paramRequiredValue f.baseName }])
  else acc

/-- Value, data-type and URI evaluation of one matched item (lines 210-214;
`evalURI` is a constant true and adds no record). -/
def itemEvalStep (f : IDSPropertyFacet) (checks : List IDSCheck) (item : Bag) :
    List IDSCheck :=
  let r1 := evalValue f item checks
  let r2 := evalDataType f item r1.2
  r2.2

/-- Processing of one matching set (lines 168-215). -/
def setEvalStep (f : IDSPropertyFacet) (checks : List IDSCheck) (set : RSet) :
    List IDSCheck :=
  match getItemsAttrName set.set.typeCode with
  | none =>
    checks ++ [{ parameter := "BaseName", currentValue := .null, pass := false,
                 requiredValue := paramRequiredValue f.baseName }]
  | some _ =>
    let items := set.items
    let ifiltered := items.foldl (itemFilterStep f) ([], checks)
    let matchingItems := ifiltered.1
    let checks := ifiltered.2
    if matchingItems.isEmpty then
      checks ++ [{ parameter := "BaseName", currentValue := .null, pass := false,
                   requiredValue := paramRequiredValue f.baseName }]
    else
      matchingItems.foldl (itemEvalStep f) checks

/-- Method `test`, for one entity (lines 126-266): filter the entity's sets by the
`propertySet` parameter; with no match, emit the single failing "PropertySet"
check and leave `pass` at its initial false (the `continue` path); otherwise
process every matching set and conjoin all recorded checks. -/
def testEntity (st : IndexerState) (model : FragmentsGroup) (f : IDSPropertyFacet)
    (expressID : Nat) (attrs : Bag) : IDSCheckResult :=
  let sets := getPsets st model expressID
  let filtered := sets.foldl (psetFilterStep f) ([], [])
  let matchingSets := filtered.1
  let checks := filtered.2
  if matchingSets.isEmpty then
    { guid := attrs.globalId, expressID := expressID, pass := false,
      checks := checks ++ [{ parameter := "PropertySet", currentValue := .null,
                             pass := false,
                             requiredValue := paramRequiredValue f.propertySet }],
      cardinality := f.cardinality }
  else
    let checks := matchingSets.foldl (setEvalStep f) checks
    { guid := attrs.globalId, expressID := expressID,
      pass := checks.all (fun c => c.pass), checks := checks,
      cardinality := f.cardinality }

/-- Method `test` (lines 124-271): one result per input entity, in iteration order
(the keyed input object is enumerated in ascending id order; the list carries
that order).  The transient `testResult` buffer is filled, copied and cleared,
so the returned list is the only observable. -/
def test (st : IndexerState) (model : FragmentsGroup) (f : IDSPropertyFacet)
    (entities : List (Nat × Bag)) : List IDSCheckResult :=
  entities.map (fun p => testEntity st model f p.1 p.2)

/-- JavaScript strict equality of an optional candidate against a facet
parameter's raw `parameter` payload, as `getEntities` uses it directly:
`undefined === x` is false, and an enumeration's array payload is never
strictly equal to a scalar. -/
def jsStrictEqParam (candidate : Option JsVal) (p : IDSFacetParameter) : Bool :=
  match p, candidate with
  | .simple v, some c => decide (c = v)
  | _, _ => false

/-- Method `getEntities` (lines 53-122): collect the ids of property/quantity sets
whose name, item names and (optionally) item values strictly equal the facet
parameters' payloads, resolve the entities defined by those sets
(`getEntitiesWithRelation`, a component not under `src/`, passed here as the
`entitiesWithRelation` function), add the resolved entities to the
caller-supplied collector — and return the empty-array literal of line 121,
never the accumulated `result`. -/
def getEntities (f : IDSPropertyFacet) (model : FragmentsGroup)
    (entitiesWithRelation : Int → List Int) (collector : List (Int × Bag)) :
    List Int × List (Int × Bag) :=
  let sets : List (Int × Bag) :=
    ((model.propsOfType IFCPROPERTYSET) ++ (model.propsOfType IFCELEMENTQUANTITY)).foldl
      (fun acc p => recSet acc p.1 p.2) []
  if sets.isEmpty then ([], collector)
  else
    let matchingSets := (sortByKey sets).foldl (fun (matchingSets : List Int) p =>
      let setID := p.1
      match model.props setID with
      | none => matchingSets
      | some attrs =>
        if jsStrictEqParam attrs.nameValue f.propertySet then
          let propsListName : Option String := none
          let propsListName :=
            if attrs.typeCode = IFCPROPERTYSET then some "HasProperties" else propsListName
          let propsListName :=
            if attrs.typeCode = IFCELEMENTQUANTITY then some "Quantities" else propsListName
          match propsListName with
          | none => matchingSets
          | some pln =>
            let handles :=
              match alookup attrs.entries pln with
              | some (.arr hs) => hs
              | _ => []
            handles.foldl (fun ms handle =>
              match handle.value with
              | .num hv =>
                match model.props hv with
                | none => ms
                | some propAttrs =>
                  if jsStrictEqParam propAttrs.nameValue f.baseName then
                    match f.value with
                    | some fv =>
                      let valueKey := (propAttrs.entries.map Prod.fst).find?
                          (fun n => strEndsWith n "Value")
                      match valueKey with
                      | none => ms
                      | some vk =>
                        if jsStrictEqParam (attrValue (alookup propAttrs.entries vk)) fv then
                          ms ++ [setID]
                        else ms
                    | none => ms ++ [setID]
                  else ms
              | _ => ms) matchingSets
        else matchingSets) []
    let resultCollector := matchingSets.foldl
      (fun (acc : List Int × List (Int × Bag)) setID =>
        (entitiesWithRelation setID).foldl
          (fun (acc : List Int × List (Int × Bag)) expressID =>
            if (alookup acc.2 expressID).isSome then acc
            else
              match model.props expressID with
              | none => acc
              | some attrs => (acc.1 ++ [expressID], recSet acc.2 expressID attrs)) acc)
      ([], collector)
    ([], resultCollector.2)

/-!
## IDS Property facet: claims
-/

theorem psetFilterFold_none (f : IDSPropertyFacet) (sets : List RSet) :
    ∀ acc : List RSet × List IDSCheck,
    (∀ s ∈ sets, evalRequirement s.set.nameValue f.propertySet = false) →
    sets.foldl (psetFilterStep f) acc = acc := by
  induction sets with
  | nil => intro acc _; rfl
  | cons s ss ih =>
    intro acc h
    rw [List.foldl_cons]
    have hstep : psetFilterStep f acc s = acc := by
      unfold psetFilterStep
      rw [h s (List.mem_cons_self s ss)]
      rfl
    rw [hstep, ih acc (fun q hq => h q (List.mem_cons_of_mem s hq))]

/-- C7 (confirmed): for an entity none of whose discovered property sets
matches the facet's `propertySet` parameter, and for every cardinality
(including prohibited and optional), `test` yields `pass = false` with exactly
one check record, labeled "PropertySet" with a null `currentValue` —
cardinality is not consulted on this path. -/
theorem c7_missing_pset_single_fail (st : IndexerState) (model : FragmentsGroup)
    (f : IDSPropertyFacet) (entities : List (Nat × Bag)) (expressID : Nat) (attrs : Bag)
    (c : IDSCardinality)
    (hmem : (expressID, attrs) ∈ entities)
    (hnomatch : ∀ s ∈ getPsets st model expressID,
      evalRequirement s.set.nameValue f.propertySet = false) :
    testEntity st model { f with cardinality := c } expressID attrs
      = { guid := attrs.globalId, expressID := expressID, pass := false,
          checks := [{ parameter := "PropertySet", currentValue := .null, pass := false,
                       requiredValue := paramRequiredValue f.propertySet }],
          cardinality := c } ∧
    testEntity st model { f with cardinality := c } expressID attrs
      ∈ test st model { f with cardinality := c } entities := by
  constructor
  · simp only [testEntity]
    rw [psetFilterFold_none { f with cardinality := c } (getPsets st model expressID)
      ([], []) hnomatch]
    rfl
  · exact List.mem_map.mpr ⟨(expressID, attrs), hmem, rfl⟩

/-- The indexer state for the C7 witness: entity 10 of model "t" has
`IsDefinedBy` (slot 7) pointing at definition 20. -/
def c7St : IndexerState := ⟨[("t", [(10, [(7, [20])])])]⟩

/-- A model whose definition 20 is a property set named "Other". -/
def c7Model : FragmentsGroup where
  uuid := "t"
  hasProperties := true
  relationRecords := fun _ => []
  props := fun id =>
    if id = 20 then
      some { typeCode := IFCPROPERTYSET,
             entries := [("Name", .scalar ⟨"IFCLABEL", 1, .str "Other"⟩),
                         ("HasProperties", .arr [])] }
    else none
  propsOfType := fun _ => []

/-- A facet requiring the absent property set "Pset_Missing". -/
def c7Facet : IDSPropertyFacet where
  propertySet := .simple (.str "Pset_Missing")
  baseName := .simple (.str "B")
  value := none
  dataType := none
  cardinality := .required

/-- The attribute bag of entity 10 itself. -/
def c7Attrs : Bag :=
  { typeCode := 100,
    entries := [("GlobalId", .scalar ⟨"IFCGLOBALLYUNIQUEID", 1, .str "G"⟩)] }

/-- C7 witness: entity 10 has one property set, named "Other", which does not
match "Pset_Missing"; even under prohibited cardinality the result is a single
failing "PropertySet" check with null `currentValue`. -/
theorem c7_witness :
    testEntity c7St c7Model { c7Facet with cardinality := IDSCardinality.prohibited } 10 c7Attrs
      = { guid := some (.str "G"), expressID := 10, pass := false,
          checks := [{ parameter := "PropertySet", currentValue := .null, pass := false,
                       requiredValue := .val (.str "Pset_Missing") }],
          cardinality := IDSCardinality.prohibited } ∧
    testEntity c7St c7Model { c7Facet with cardinality := IDSCardinality.prohibited } 10 c7Attrs
      ∈ test c7St c7Model { c7Facet with cardinality := IDSCardinality.prohibited }
          [(10, c7Attrs)] :=
  ⟨(c7_missing_pset_single_fail c7St c7Model c7Facet [(10, c7Attrs)] 10 c7Attrs
      IDSCardinality.prohibited (List.mem_cons_self _ _) (by decide)).1,
   (c7_missing_pset_single_fail c7St c7Model c7Facet [(10, c7Attrs)] 10 c7Attrs
      IDSCardinality.prohibited (List.mem_cons_self _ _) (by decide)).2⟩

/-- A facet whose value constraint is the number 2. -/
def c8FacetLogical : IDSPropertyFacet where
  propertySet := .simple (.str "P")
  baseName := .simple (.str "B")
  value := some (.simple (.num 2))
  dataType := none
  cardinality := .required

/-- An item carrying a logical-unknown value (`type 3`, `value 2`). -/
def c8AttrsLogical : Bag :=
  { typeCode := IFCPROPERTYSINGLEVALUE,
    entries := [("Name", .scalar ⟨"IFCIDENTIFIER", 1, .str "B"⟩),
                ("NominalValue", .scalar ⟨"IFCLOGICAL", 3, .num 2⟩)] }

/-- A facet whose value constraint is the one-space string. -/
def c8FacetWhitespace : IDSPropertyFacet where
  propertySet := .simple (.str "P")
  baseName := .simple (.str "B")
  value := some (.simple (.str " "))
  dataType := none
  cardinality := .required

/-- An item carrying the all-whitespace string value " " (`type 1`). -/
def c8AttrsWhitespace : Bag :=
  { typeCode := IFCPROPERTYSINGLEVALUE,
    entries := [("Name", .scalar ⟨"IFCIDENTIFIER", 1, .str "B"⟩),
                ("NominalValue", .scalar ⟨"IFCTEXT", 1, .str " "⟩)] }

/-- C8 counterexample: with a value constraint set, a logical-unknown value
equal to the constraint passes, and an all-whitespace string equal to the
constraint passes — so the two always-fail rules are not independent of the
value constraint being set; they live only on the no-constraint path. -/
theorem c8_counterexample :
    (evalValue c8FacetLogical c8AttrsLogical []).1 = true ∧
    (evalValue c8FacetWhitespace c8AttrsWhitespace []).1 = true := by
  refine ⟨by decide, by decide⟩

/-- C8 (amended): when the facet's value constraint is NOT set, a
logical-unknown value (`type === 3 && value === 2`) always fails and an
all-whitespace string value (`type === 1`) always fails. -/
theorem c8_amended_no_constraint_rules (f : IDSPropertyFacet) (attrs : Bag)
    (checks : List IDSCheck) (key : String) (v : IfcValueAttr)
    (hnone : f.value = none)
    (hkey : getValueKey attrs = some key)
    (hval : alookup attrs.entries key = some (.scalar v))
    (hcond : (v.typeTag = 3 ∧ v.value = JsVal.num 2)
      ∨ (v.typeTag = 1 ∧ jsTrimEmptyVal v.value = true)) :
    (evalValue f attrs checks).1 = false := by
  unfold evalValue
  rw [hnone]
  simp only [hkey, hval]
  rcases hcond with ⟨h1, h2⟩ | ⟨h1, h2⟩
  · rw [if_pos ⟨h1, h2⟩]
  · rw [if_neg (fun hc : v.typeTag = 3 ∧ v.value = JsVal.num 2 => by
      rw [h1] at hc
      exact absurd hc.1 (by decide)), if_pos ⟨h1, h2⟩]

/-- The no-constraint facet for the C8 witness. -/
def c8FacetNone : IDSPropertyFacet where
  propertySet := .simple (.str "P")
  baseName := .simple (.str "B")
  value := none
  dataType := none
  cardinality := .required

/-- C8 witness: with no value constraint, the logical-unknown item fails and
the all-whitespace item fails. -/
theorem c8_witness :
    c8FacetNone.value = none ∧
    (evalValue c8FacetNone c8AttrsLogical []).1 = false ∧
    (evalValue c8FacetNone c8AttrsWhitespace []).1 = false :=
  ⟨rfl,
   c8_amended_no_constraint_rules c8FacetNone c8AttrsLogical [] "NominalValue"
     ⟨"IFCLOGICAL", 3, .num 2⟩ rfl (by decide) (by decide) (Or.inl ⟨rfl, rfl⟩),
   c8_amended_no_constraint_rules c8FacetNone c8AttrsWhitespace [] "NominalValue"
     ⟨"IFCTEXT", 1, .str " "⟩ rfl (by decide) (by decide) (Or.inr ⟨rfl, by decide⟩)⟩

theorem find_isSome_eq_any {δ : Type} (p : δ → Bool) (l : List δ) :
    (l.find? p).isSome = l.any p := by
  induction l with
  | nil => rfl
  | cons d ds ih =>
    by_cases h : p d = true
    · simp [List.find?_cons, h]
    · simp only [Bool.not_eq_true] at h
      simp [List.find?_cons, h, ih]

/-- C9 (confirmed): a list-valued or enumerated-valued property evaluated
against a value constraint passes exactly when some element matches the
constraint, and the emitted check's `currentValue` is the full list of element
values. -/
theorem c9_list_value_any_match (f : IDSPropertyFacet) (fv : IDSFacetParameter)
    (attrs : Bag) (checks : List IDSCheck) (key : String) (vs : List IfcValueAttr)
    (hfv : f.value = some fv)
    (hkey : getValueKey attrs = some key)
    (hval : alookup attrs.entries key = some (.arr vs))
    (htype : attrs.typeCode = IFCPROPERTYLISTVALUE
      ∨ attrs.typeCode = IFCPROPERTYENUMERATEDVALUE) :
    (evalValue f attrs checks).1 = vs.any (fun v => evalRequirement (some v.value) fv) ∧
    (evalValue f attrs checks).2 = checks ++ [{ parameter := "Value",
                                                currentValue := .listVal
                                                  (vs.map (fun v => v.value)),
                                                pass := vs.any (fun v =>
                                                  evalRequirement (some v.value) fv),
                                                requiredValue := paramRequiredValue fv }] := by
  unfold evalValue
  rw [hfv]
  simp [hkey, hval, if_pos htype, attrName, find_isSome_eq_any]

/-- The spec's enumerated-value example: the facet requires value "B". -/
def c9Facet : IDSPropertyFacet where
  propertySet := .simple (.str "P")
  baseName := .simple (.str "B")
  value := some (.simple (.str "B"))
  dataType := none
  cardinality := .required

/-- A list-valued property with element values "A" and "B". -/
def c9Attrs : Bag :=
  { typeCode := IFCPROPERTYLISTVALUE,
    entries := [("Name", .scalar ⟨"IFCIDENTIFIER", 1, .str "B"⟩),
                ("ListValues", .arr [⟨"IFCLABEL", 1, .str "A"⟩, ⟨"IFCLABEL", 1, .str "B"⟩])] }

/-- C9 witness: the list value `["A", "B"]` against constraint "B" passes with
`currentValue` the full list `["A", "B"]`. -/
theorem c9_witness :
    (evalValue c9Facet c9Attrs []).1 = true ∧
    (evalValue c9Facet c9Attrs []).2 = [{ parameter := "Value",
                                          currentValue := .listVal [.str "A", .str "B"],
                                          pass := true,
                                          requiredValue := .val (.str "B") }] :=
  ⟨((c9_list_value_any_match c9Facet (.simple (.str "B")) c9Attrs [] "ListValues"
      [⟨"IFCLABEL", 1, .str "A"⟩, ⟨"IFCLABEL", 1, .str "B"⟩] rfl (by decide) (by decide)
      (Or.inl rfl)).1).trans (by decide),
   ((c9_list_value_any_match c9Facet (.simple (.str "B")) c9Attrs [] "ListValues"
      [⟨"IFCLABEL", 1, .str "A"⟩, ⟨"IFCLABEL", 1, .str "B"⟩] rfl (by decide) (by decide)
      (Or.inl rfl)).2).trans (by decide)⟩

/-- C10 (confirmed): `getEntities` resolves to the empty array for every
model, relation source and collector — the accumulated `result` list is never
returned (line 121 returns the literal `[]`), even though matched entities
were added to the caller-supplied collector. -/
theorem c10_getEntities_returns_empty (f : IDSPropertyFacet) (model : FragmentsGroup)
    (entitiesWithRelation : Int → List Int) (collector : List (Int × Bag)) :
    (getEntities f model entitiesWithRelation collector).1 = [] := by
  simp only [getEntities]
  split <;> rfl

end Spec2Proof
